import Mathlib

/-!
Verification of the Socket.IO terminal client in `internal/terminal/socketio.go`.

The development shallowly embeds the packet codec (Go `encoding/json`
marshalling and unmarshalling at the fidelity the terminal code exercises),
the URL builder, and the connection-session state machine, and proves the
spec's testable properties about them.  Packets and byte strings are
modelled as `List Char` (all frames are UTF-8 text), machine integers as
`Int`/`Nat`.
-/

namespace CVPS

/-! ### Characters and hex helpers -/

/-- Decimal digit test (`0` – `9`). -/
def isDigit (c : Char) : Bool := 48 ≤ c.toNat ∧ c.toNat ≤ 57

/-- JSON insignificant whitespace, as accepted by Go's JSON scanner. -/
def isJsonWs (c : Char) : Bool := c = ' ' ∨ c = '\t' ∨ c = '\n' ∨ c = '\r'

/-- Skip insignificant whitespace. -/
def skipWs (cs : List Char) : List Char := cs.dropWhile isJsonWs

/-- Lowercase hex digits, as emitted by Go's JSON encoder. -/
def hexDigitChar (n : Nat) : Char := "0123456789abcdef".toList.getD n '0'

/-- Four lowercase hex digits for a code point below `0x10000`. -/
def hex4 (n : Nat) : List Char :=
  [hexDigitChar (n / 4096 % 16), hexDigitChar (n / 256 % 16),
   hexDigitChar (n / 16 % 16), hexDigitChar (n % 16)]

/-- Numeric value of one hex digit (either case), `none` for non-hex. -/
def hexVal (c : Char) : Option Nat :=
  if 48 ≤ c.toNat ∧ c.toNat ≤ 57 then some (c.toNat - 48)
  else if 97 ≤ c.toNat ∧ c.toNat ≤ 102 then some (c.toNat - 87)
  else if 65 ≤ c.toNat ∧ c.toNat ≤ 70 then some (c.toNat - 55)
  else none

/-! ### JSON values

Numbers keep their source lexeme: the terminal code never reads a numeric
payload field, it only writes integers (`cols`/`rows`) and passes other
numbers through as raw bytes. -/

mutual
inductive Json where
  | null : Json
  | bool (b : Bool) : Json
  | num (lexeme : List Char) : Json
  | str (s : String) : Json
  | arr (elems : JsonArr) : Json
  | obj (fields : JsonObj) : Json
  deriving DecidableEq

inductive JsonArr where
  | nil : JsonArr
  | cons (hd : Json) (tl : JsonArr) : JsonArr
  deriving DecidableEq

inductive JsonObj where
  | nil : JsonObj
  | cons (key : String) (val : Json) (tl : JsonObj) : JsonObj
  deriving DecidableEq
end

/-! ### Go `json.Marshal` string escaping (HTML escaping on, the default) -/

/-- Escape one character the way Go's `encoding/json` encoder does with
HTML escaping enabled: `"` `\` `\n` `\r` `\t` get two-character escapes,
other control characters and `<` `>` `&` `U+2028` `U+2029` get `\uXXXX`,
everything else is emitted verbatim. -/
def escapeChar (c : Char) : List Char :=
  if c = '"' then ['\\', '"']
  else if c = '\\' then ['\\', '\\']
  else if c = '\n' then ['\\', 'n']
  else if c = '\r' then ['\\', 'r']
  else if c = '\t' then ['\\', 't']
  else if c.toNat < 32 ∨ c = '<' ∨ c = '>' ∨ c = '&' ∨
          c.toNat = 8232 ∨ c.toNat = 8233 then
    '\\' :: 'u' :: hex4 c.toNat
  else [c]

def escapeChars : List Char → List Char
  | [] => []
  | c :: cs => escapeChar c ++ escapeChars cs

/-- Go `json.Marshal` rendering of a string value, quotes included. -/
def marshalString (s : String) : List Char :=
  '"' :: (escapeChars s.toList ++ ['"'])

mutual
/-- Go `json.Marshal` output for a JSON value (compact form). -/
def Json.marshal : Json → List Char
  | .null => "null".toList
  | .bool true => "true".toList
  | .bool false => "false".toList
  | .num lex => lex
  | .str s => marshalString s
  | .arr a => '[' :: (JsonArr.marshalElems a ++ [']'])
  | .obj f => '{' :: (JsonObj.marshalFields f ++ ['}'])

def JsonArr.marshalElems : JsonArr → List Char
  | .nil => []
  | .cons v .nil => Json.marshal v
  | .cons v (.cons w tl) =>
      Json.marshal v ++ ',' :: JsonArr.marshalElems (.cons w tl)

def JsonObj.marshalFields : JsonObj → List Char
  | .nil => []
  | .cons k v .nil => marshalString k ++ ':' :: Json.marshal v
  | .cons k v (.cons k2 v2 tl) =>
      marshalString k ++ ':' :: Json.marshal v ++
        ',' :: JsonObj.marshalFields (.cons k2 v2 tl)
end

/-! ### JSON number lexemes (RFC 8259 grammar, as Go's scanner checks) -/

/-- Characters that can occur in a number token. -/
def isNumChar (c : Char) : Bool :=
  isDigit c ∨ c = '-' ∨ c = '+' ∨ c = '.' ∨ c = 'e' ∨ c = 'E'

def numIntPart : List Char → Option (List Char)
  | [] => none
  | c :: rest =>
    if c = '0' then some rest
    else if isDigit c then some (rest.dropWhile isDigit)
    else none

def numFracPart : List Char → Option (List Char)
  | '.' :: rest =>
    match rest with
    | c :: _ => if isDigit c then some (rest.dropWhile isDigit) else none
    | [] => none
  | cs => some cs

def numExpPart : List Char → Option (List Char)
  | [] => some []
  | e :: rest =>
    if e = 'e' ∨ e = 'E' then
      let rest2 := match rest with
        | s :: r => if s = '+' ∨ s = '-' then r else s :: r
        | [] => []
      match rest2 with
      | c :: _ => if isDigit c then some (rest2.dropWhile isDigit) else none
      | [] => none
    else some (e :: rest)

/-- Whether a list of characters is one complete JSON number token. -/
def validNumberLexeme (cs : List Char) : Bool :=
  let cs1 := match cs with
    | '-' :: r => r
    | r => r
  match numIntPart cs1 with
  | none => false
  | some r2 =>
    match numFracPart r2 with
    | none => false
    | some r3 =>
      match numExpPart r3 with
      | some [] => true
      | _ => false

/-! ### Well-formed JSON values: number lexemes are genuine number tokens.
These are exactly the values Go `json.Marshal` can produce. -/

mutual
def Json.WF : Json → Bool
  | .num lex => validNumberLexeme lex
  | .arr a => JsonArr.WF a
  | .obj f => JsonObj.WF f
  | _ => true

def JsonArr.WF : JsonArr → Bool
  | .nil => true
  | .cons v tl => Json.WF v ∧ JsonArr.WF tl

def JsonObj.WF : JsonObj → Bool
  | .nil => true
  | .cons _ v tl => Json.WF v ∧ JsonObj.WF tl
end

/-! ### JSON parsing (Go `encoding/json` scanning + unquoting)

All parsers are fuelled; every recursive call consumes at least one
character, so fuel `input length + 1` always suffices. -/

/-- Unicode replacement character, written by Go for invalid surrogates. -/
def replChar : Char := Char.ofNat 65533

/-- Read four hex digits. -/
def parseHex4 : List Char → Option (Nat × List Char)
  | a :: b :: c :: d :: rest =>
    match hexVal a, hexVal b, hexVal c, hexVal d with
    | some va, some vb, some vc, some vd =>
      some (va * 4096 + vb * 256 + vc * 16 + vd, rest)
    | _, _, _, _ => none
  | _ => none

/-- Decode the code unit `n` of a `\uXXXX` escape: combine a high
surrogate with a following `\uXXXX` low surrogate, substitute the
replacement character for invalid surrogates, pass anything else through.
Returns the decoded character and the remainder to resume from. -/
def decodeUnicodeEscape (n : Nat) (rest3 : List Char) : Char × List Char :=
  if 55296 ≤ n ∧ n < 56320 then
    match rest3 with
    | '\\' :: 'u' :: rest4 =>
      match parseHex4 rest4 with
      | some (m, rest5) =>
        if 56320 ≤ m ∧ m < 57344 then
          (Char.ofNat (65536 + (n - 55296) * 1024 + (m - 56320)), rest5)
        else (replChar, rest3)
      | none => (replChar, rest3)
    | _ => (replChar, rest3)
  else if 56320 ≤ n ∧ n < 57344 then (replChar, rest3)
  else (Char.ofNat n, rest3)

/-- Parse the body of a JSON string literal (after the opening quote),
returning the decoded characters and the remainder after the closing
quote.  Mirrors Go's scanner validation (raw control characters and bad
escapes are errors) combined with `unquote` (surrogate-pair handling,
replacement character for invalid surrogates). -/
def parseStringBody : Nat → List Char → Option (List Char × List Char)
  | 0, _ => none
  | _ + 1, [] => none
  | fuel + 1, c :: rest =>
    if c = '"' then some ([], rest)
    else if c = '\\' then
      match rest with
      | [] => none
      | e :: rest2 =>
        if e = '"' ∨ e = '\\' ∨ e = '/' then
          (parseStringBody fuel rest2).map (fun p => (e :: p.1, p.2))
        else if e = 'b' then
          (parseStringBody fuel rest2).map (fun p => (Char.ofNat 8 :: p.1, p.2))
        else if e = 'f' then
          (parseStringBody fuel rest2).map (fun p => (Char.ofNat 12 :: p.1, p.2))
        else if e = 'n' then
          (parseStringBody fuel rest2).map (fun p => ('\n' :: p.1, p.2))
        else if e = 'r' then
          (parseStringBody fuel rest2).map (fun p => ('\r' :: p.1, p.2))
        else if e = 't' then
          (parseStringBody fuel rest2).map (fun p => ('\t' :: p.1, p.2))
        else if e = 'u' then
          match parseHex4 rest2 with
          | none => none
          | some (n, rest3) =>
            let d := decodeUnicodeEscape n rest3
            (parseStringBody fuel d.2).map (fun p => (d.1 :: p.1, p.2))
        else none
    else if c.toNat < 32 then none
    else (parseStringBody fuel rest).map (fun p => (c :: p.1, p.2))

mutual
/-- Parse one JSON value (leading whitespace allowed), returning the value
and the remainder immediately after it. -/
def parseValue : Nat → List Char → Option (Json × List Char)
  | 0, _ => none
  | fuel + 1, cs =>
    match skipWs cs with
    | [] => none
    | c :: rest =>
      if c = '"' then
        (parseStringBody (rest.length + 1) rest).map
          (fun p => (Json.str (String.mk p.1), p.2))
      else if c = '[' then
        match skipWs rest with
        | ']' :: r => some (.arr .nil, r)
        | _ => (parseArrayElems fuel rest).map (fun p => (Json.arr p.1, p.2))
      else if c = '{' then
        match skipWs rest with
        | '}' :: r => some (.obj .nil, r)
        | _ => (parseObjFields fuel rest).map (fun p => (Json.obj p.1, p.2))
      else if c = 't' then
        match rest with
        | 'r' :: 'u' :: 'e' :: r => some (.bool true, r)
        | _ => none
      else if c = 'f' then
        match rest with
        | 'a' :: 'l' :: 's' :: 'e' :: r => some (.bool false, r)
        | _ => none
      else if c = 'n' then
        match rest with
        | 'u' :: 'l' :: 'l' :: r => some (.null, r)
        | _ => none
      else if c = '-' ∨ isDigit c then
        let lex := (c :: rest).takeWhile isNumChar
        if validNumberLexeme lex then
          some (Json.num lex, (c :: rest).dropWhile isNumChar)
        else none
      else none

/-- Parse the elements of a non-empty array (input starts after `[`),
consuming the closing `]`. -/
def parseArrayElems : Nat → List Char → Option (JsonArr × List Char)
  | 0, _ => none
  | fuel + 1, cs =>
    match parseValue fuel cs with
    | none => none
    | some (v, r) =>
      match skipWs r with
      | ',' :: r2 => (parseArrayElems fuel r2).map (fun p => (.cons v p.1, p.2))
      | ']' :: r2 => some (.cons v .nil, r2)
      | _ => none

/-- Parse the fields of a non-empty object (input starts after `{`),
consuming the closing `}`. -/
def parseObjFields : Nat → List Char → Option (JsonObj × List Char)
  | 0, _ => none
  | fuel + 1, cs =>
    match skipWs cs with
    | '"' :: r =>
      match parseStringBody (r.length + 1) r with
      | none => none
      | some (k, r2) =>
        match skipWs r2 with
        | ':' :: r3 =>
          match parseValue fuel r3 with
          | none => none
          | some (v, r4) =>
            match skipWs r4 with
            | ',' :: r5 =>
              (parseObjFields fuel r5).map (fun p => (.cons (String.mk k) v p.1, p.2))
            | '}' :: r5 => some (.cons (String.mk k) v .nil, r5)
            | _ => none
        | _ => none
    | _ => none
end

/-- Parse one complete JSON document: one value plus optional trailing
whitespace, as `json.Unmarshal` requires. -/
def parseJson (cs : List Char) : Option Json :=
  match parseValue (cs.length + 1) cs with
  | some (v, r) => if (skipWs r).isEmpty then some v else none
  | none => none

/-- The prefix of `cs` consumed by a parse that left `rest` (which is a
suffix of `cs`). -/
def rawOfConsumed (cs rest : List Char) : List Char :=
  cs.take (cs.length - rest.length)

/-- Raw (`json.RawMessage`) elements of a non-empty array body; input
starts after the `[`.  Each element is kept as its exact source text. -/
def parseMessageElems : Nat → List Char → Option (List (List Char) × List Char)
  | 0, _ => none
  | fuel + 1, cs =>
    let cs1 := skipWs cs
    match parseValue fuel cs1 with
    | none => none
    | some (_, r) =>
      let raw := rawOfConsumed cs1 r
      match skipWs r with
      | ',' :: r2 => (parseMessageElems fuel r2).map (fun p => (raw :: p.1, p.2))
      | ']' :: r2 => some ([raw], r2)
      | _ => none

/-- Models `json.Unmarshal(body, &arr)` for `arr : []json.RawMessage`:
the whole input must be one JSON array (modulo whitespace).  Inputs on
which Go would leave `arr` empty or fail (`null`, non-array values,
syntax errors) all map to `none`; `parseSocketIOEvent` treats an empty
slice and an unmarshal error identically, so this loses nothing. -/
def parseJsonArrayRaw (cs : List Char) : Option (List (List Char)) :=
  match skipWs cs with
  | '[' :: rest =>
    match skipWs rest with
    | ']' :: r2 => if (skipWs r2).isEmpty then some [] else none
    | _ =>
      match parseMessageElems (cs.length + 1) rest with
      | some (elems, r) => if (skipWs r).isEmpty then some elems else none
      | none => none
  | _ => none

/-- Models `json.Unmarshal(raw, &s)` for `s : string`: the document must
be exactly one JSON string.  (`null` leaves `s` empty in Go; the caller
rejects an empty event name, so mapping it to `none` is equivalent.) -/
def parseJsonString (cs : List Char) : Option String :=
  match parseValue (cs.length + 1) cs with
  | some (.str s, r) => if (skipWs r).isEmpty then some s else none
  | _ => none

/-! ### The Socket.IO packet codec (`socketio.go`) -/

/-- `namespacePrefix` from socketio.go: empty for the root namespace
(`""` or `"/"`), otherwise the namespace followed by `,`. -/
def namespacePrefixOf (ns : String) : List Char :=
  if ns = "" ∨ ns = "/" then [] else ns.toList ++ [',']

/-- The inner frame built by `emit`: `json.Marshal([]any{event, payload})`. -/
def marshalEventFrame (event : String) (payload : Json) : List Char :=
  '[' :: (marshalString event ++ ',' :: (payload.marshal ++ [']']))

/-- The full wire packet written by `emit`:
`"42" + namespacePrefix() + frameData`. -/
def emitPacket (ns event : String) (payload : Json) : List Char :=
  '4' :: '2' :: (namespacePrefixOf ns ++ marshalEventFrame event payload)

/-- `parseSocketIOEvent` from socketio.go.  `none` is `ok = false`; a
successful parse returns the event name and, when the array has a second
element, its raw text (`arr[1]`). -/
def parseSocketIOEvent (packet : List Char) : Option (String × Option (List Char)) :=
  match packet with
  | '2' :: body0 =>
    let stripped : Option (List Char) :=
      match body0 with
      | '/' :: _ =>
        if body0.contains ',' then
          some ((body0.dropWhile (fun c => c != ',')).drop 1)
        else none
      | _ => some body0
    match stripped with
    | none => none
    | some body =>
      match body with
      | '[' :: _ =>
        match parseJsonArrayRaw body with
        | some (e0 :: restElems) =>
          match parseJsonString e0 with
          | some ev => if ev = "" then none else some (ev, restElems.head?)
          | none => none
        | _ => none
      | _ => none
  | _ => none

/-! ### URL builder (`buildSocketIOURL`)

Go strings are byte strings; query keys and values are therefore modelled
as byte lists (`List Nat`), converted from Lean strings through UTF-8. -/

/-- UTF-8 bytes of one scalar value. -/
def utf8Bytes (c : Char) : List Nat :=
  let n := c.toNat
  if n < 128 then [n]
  else if n < 2048 then [192 + n / 64, 128 + n % 64]
  else if n < 65536 then [224 + n / 4096, 128 + n / 64 % 64, 128 + n % 64]
  else [240 + n / 262144, 128 + n / 4096 % 64, 128 + n / 64 % 64, 128 + n % 64]

def utf8Encode : List Char → List Nat
  | [] => []
  | c :: cs => utf8Bytes c ++ utf8Encode cs

def strBytes (s : String) : List Nat := utf8Encode s.toList

/-- Hex value of one byte that is an ASCII hex digit (Go's `unhex`). -/
def hexValByte (b : Nat) : Option Nat :=
  if 48 ≤ b ∧ b ≤ 57 then some (b - 48)
  else if 97 ≤ b ∧ b ≤ 102 then some (b - 87)
  else if 65 ≤ b ∧ b ≤ 70 then some (b - 55)
  else none

/-- Go `url.QueryUnescape` on bytes: `%XX` becomes the byte `XX`, `+`
becomes space, anything else passes through; a malformed `%` sequence is
an error. -/
def unescapeBytes : List Nat → Option (List Nat)
  | [] => some []
  | 37 :: h1 :: h2 :: rest =>
    match hexValByte h1, hexValByte h2 with
    | some v1, some v2 => (unescapeBytes rest).map (fun bs => (v1 * 16 + v2) :: bs)
    | _, _ => none
  | 37 :: _ => none
  | 43 :: rest => (unescapeBytes rest).map (fun bs => 32 :: bs)
  | b :: rest => (unescapeBytes rest).map (fun bs => b :: bs)

/-- `url.Values`: an association from keys to lists of values, with unique
keys (Go uses a map; insertion order is irrelevant because `Encode` sorts). -/
abbrev QueryValues := List (List Nat × List (List Nat))

/-- `v.Add(key, value)`: append to the key's value list. -/
def valuesAdd : QueryValues → List Nat → List Nat → QueryValues
  | [], k, v => [(k, [v])]
  | (k1, vs1) :: rest, k, v =>
    if k1 = k then (k1, vs1 ++ [v]) :: rest else (k1, vs1) :: valuesAdd rest k v

/-- `v.Set(key, value)`: replace the key's values with the single value. -/
def valuesSet : QueryValues → List Nat → List Nat → QueryValues
  | [], k, v => [(k, [v])]
  | (k1, vs1) :: rest, k, v =>
    if k1 = k then (k1, [v]) :: rest else (k1, vs1) :: valuesSet rest k v

/-- `v.Get`-style lookup of the full value list (empty when absent). -/
def valuesGet : QueryValues → List Nat → List (List Nat)
  | [], _ => []
  | (k1, vs1) :: rest, k => if k1 = k then vs1 else valuesGet rest k

/-- Split a byte string on `&` (byte 38). -/
def splitAmp : List Nat → List (List Nat)
  | [] => [[]]
  | 38 :: rest => [] :: splitAmp rest
  | b :: rest =>
    match splitAmp rest with
    | seg :: segs => (b :: seg) :: segs
    | [] => [[b]]

/-- Go `url.ParseQuery`: split on `&`, reject segments containing `;`
(byte 59), cut each segment at the first `=` (byte 61), unescape key and
value, and accumulate left to right; bad segments are skipped. -/
def parseQueryBytes (raw : List Nat) : QueryValues :=
  (splitAmp raw).foldl
    (fun acc seg =>
      if seg = [] then acc
      else if seg.contains 59 then acc
      else
        let k := seg.takeWhile (fun b => b != 61)
        let v := (seg.dropWhile (fun b => b != 61)).drop 1
        match unescapeBytes k, unescapeBytes v with
        | some kb, some vb => valuesAdd acc kb vb
        | _, _ => acc)
    []

/-- Byte-lexicographic order on keys, as `sort.Strings` uses. -/
def bytesLe : List Nat → List Nat → Bool
  | [], _ => true
  | _ :: _, [] => false
  | a :: as, b :: bs => if a < b then true else if b < a then false else bytesLe as bs

def insertByKey (e : List Nat × List (List Nat)) : QueryValues → QueryValues
  | [] => [e]
  | f :: fs => if bytesLe e.1 f.1 then e :: f :: fs else f :: insertByKey e fs

/-- Insertion sort of the entries by key (`Encode` iterates sorted keys). -/
def sortByKey : QueryValues → QueryValues
  | [] => []
  | e :: es => insertByKey e (sortByKey es)

def upperHexChar (n : Nat) : Char := "0123456789ABCDEF".toList.getD n '0'

/-- Byte needs `%XX` escaping in a query component (Go `shouldEscape` with
`encodeQueryComponent`): everything but ASCII alphanumerics and `-_.~`
(space is handled separately as `+`). -/
def shouldEscapeQueryByte (b : Nat) : Bool :=
  !((65 ≤ b ∧ b ≤ 90) ∨ (97 ≤ b ∧ b ≤ 122) ∨ (48 ≤ b ∧ b ≤ 57) ∨
    b = 45 ∨ b = 95 ∨ b = 46 ∨ b = 126)

/-- Go `url.QueryEscape` of a byte string. -/
def queryEscapeBytes : List Nat → List Char
  | [] => []
  | b :: rest =>
    (if b = 32 then ['+']
     else if shouldEscapeQueryByte b then ['%', upperHexChar (b / 16 % 16), upperHexChar (b % 16)]
     else [Char.ofNat b]) ++ queryEscapeBytes rest

/-- The `key=value` pairs of the entries, in entry order. -/
def pairsOf : QueryValues → List (List Nat × List Nat)
  | [] => []
  | (k, vals) :: rest => vals.map (fun v => (k, v)) ++ pairsOf rest

def encodePairs : List (List Nat × List Nat) → List Char
  | [] => []
  | [(k, v)] => queryEscapeBytes k ++ '=' :: queryEscapeBytes v
  | (k, v) :: rest =>
    queryEscapeBytes k ++ '=' :: (queryEscapeBytes v ++ '&' :: encodePairs rest)

/-- `url.Values.Encode`: sorted keys, escaped `k=v` pairs joined by `&`. -/
def encodeValues (vs : QueryValues) : List Char := encodePairs (pairsOf (sortByKey vs))

/-- The components of a parsed `net/url.URL` that the terminal client
uses.  Userinfo, fragments, opaque URLs and percent-escapes inside the
path are outside the modelled subset (the client never produces them). -/
structure GoURL where
  scheme : String
  host : String
  path : String
  rawQuery : List Char
  deriving DecidableEq

/-- `URL.String()` on the modelled subset: `scheme://host path ?query`.
The fixed paths the client uses contain no characters that Go's path
escaping would rewrite, so the path is emitted verbatim. -/
def urlString (u : GoURL) : List Char :=
  u.scheme.toList ++ ':' :: '/' :: '/' :: (u.host.toList ++ u.path.toList ++
    (if u.rawQuery = [] then [] else '?' :: u.rawQuery))

/-- `url.Parse` on the `scheme://host[/path][?query]` subset the terminal
client receives. -/
def parseURLModel (s : String) : Option GoURL :=
  let cs := s.toList
  let scheme := cs.takeWhile (fun c => c != ':')
  match cs.dropWhile (fun c => c != ':') with
  | ':' :: '/' :: '/' :: rest =>
    if scheme = [] then none
    else
      let hostPart := rest.takeWhile (fun c => c != '/' && c != '?')
      let after := rest.dropWhile (fun c => c != '/' && c != '?')
      let path := after.takeWhile (fun c => c != '?')
      let q : List Char :=
        match after.dropWhile (fun c => c != '?') with
        | '?' :: qs => qs
        | _ => []
      some { scheme := String.mk scheme, host := String.mk hostPart,
             path := String.mk path, rawQuery := q }
  | _ => none

/-- The query values `buildSocketIOURL` ends up encoding: the base URL's
parsed query with `EIO=4`, `transport=websocket` and `token=<token>`
set (added or overwritten). -/
def buildSocketIOValues (rawQuery : List Char) (token : String) : QueryValues :=
  valuesSet
    (valuesSet
      (valuesSet (parseQueryBytes (utf8Encode rawQuery)) (strBytes "EIO") (strBytes "4"))
      (strBytes "transport") (strBytes "websocket"))
    (strBytes "token") (strBytes token)

/-- `buildSocketIOURL` after the parse step: rewrite the scheme, replace
the path with `/socket.io/`, re-encode the query, and return the derived
URL record together with the namespace. -/
def buildSocketIOURLFrom (u : GoURL) (token : String) : GoURL × String :=
  let ns := if u.path = "" then "/terminal" else u.path
  let scheme :=
    if u.scheme = "https" then "wss"
    else if u.scheme = "http" then "ws"
    else u.scheme
  ({ scheme := scheme, host := u.host, path := "/socket.io/",
     rawQuery := encodeValues (buildSocketIOValues u.rawQuery token) }, ns)

/-- `buildSocketIOURL(rawURL, token)`: parse, rewrite, render.  `none`
models the `invalid websocket url` error. -/
def buildSocketIOURL (rawURL token : String) : Option (List Char × String) :=
  (parseURLModel rawURL).map (fun u =>
    let r := buildSocketIOURLFrom u token
    (urlString r.1, r.2))

/-! ### Base64 (`encoding/base64` standard alphabet, padded) -/

def b64Alphabet : List Char :=
  "ABCDEFGHIJKLMNOPQRSTUVWXYZabcdefghijklmnopqrstuvwxyz0123456789+/".toList

def b64Char (n : Nat) : Char := b64Alphabet.getD n 'A'

/-- `base64.StdEncoding.EncodeToString` on bytes. -/
def base64Encode : List Nat → List Char
  | [] => []
  | [b1] => [b64Char (b1 / 4), b64Char (b1 % 4 * 16), '=', '=']
  | [b1, b2] => [b64Char (b1 / 4), b64Char (b1 % 4 * 16 + b2 / 16), b64Char (b2 % 16 * 4), '=']
  | b1 :: b2 :: b3 :: rest =>
    b64Char (b1 / 4) :: b64Char (b1 % 4 * 16 + b2 / 16) ::
      b64Char (b2 % 16 * 4 + b3 / 64) :: b64Char (b3 % 64) :: base64Encode rest

def b64Val (c : Char) : Option Nat :=
  let idx := b64Alphabet.indexOf c
  if idx < 64 then some idx else none

def base64DecodeGroups : List Char → Option (List Nat)
  | [] => some []
  | [c1, c2, '=', '='] =>
    match b64Val c1, b64Val c2 with
    | some v1, some v2 => some [v1 * 4 + v2 / 16]
    | _, _ => none
  | [c1, c2, c3, '='] =>
    match b64Val c1, b64Val c2, b64Val c3 with
    | some v1, some v2, some v3 => some [v1 * 4 + v2 / 16, v2 % 16 * 16 + v3 / 4]
    | _, _, _ => none
  | c1 :: c2 :: c3 :: c4 :: rest =>
    match b64Val c1, b64Val c2, b64Val c3, b64Val c4 with
    | some v1, some v2, some v3, some v4 =>
      (base64DecodeGroups rest).map
        (fun bs => (v1 * 4 + v2 / 16) :: ((v2 % 16 * 16 + v3 / 4) :: ((v3 % 4 * 64 + v4) :: bs)))
    | _, _, _, _ => none
  | _ => none

/-- `base64.StdEncoding.DecodeString`: newlines are skipped, input must be
whole padded quadruples over the standard alphabet. -/
def base64DecodeString (s : String) : Option (List Nat) :=
  base64DecodeGroups (s.toList.filter (fun c => c != '\n' && c != '\r'))

/-! ### Go `strings.TrimSpace` -/

/-- `unicode.IsSpace`. -/
def goIsSpace (c : Char) : Bool :=
  let n := c.toNat
  (9 ≤ n ∧ n ≤ 13) ∨ n = 32 ∨ n = 133 ∨ n = 160 ∨ n = 5760 ∨
    (8192 ≤ n ∧ n ≤ 8202) ∨ n = 8232 ∨ n = 8233 ∨ n = 8239 ∨ n = 8287 ∨ n = 12288

def trimSpace (s : String) : String :=
  String.mk (((s.toList.dropWhile goIsSpace).reverse.dropWhile goIsSpace).reverse)

/-! ### Payload structs (Go `json.Marshal` field order) -/

/-- Decimal lexeme of a Go `int`. -/
def intLexeme (n : Int) : List Char :=
  match n with
  | .ofNat m => Nat.toDigits 10 m
  | .negSucc m => '-' :: Nat.toDigits 10 (m + 1)

/-- `terminalResizePayload{SessionID, Cols, Rows}`. -/
def resizePayload (sessionID : String) (cols rows : Int) : Json :=
  .obj (.cons "sessionId" (.str sessionID)
    (.cons "cols" (.num (intLexeme cols))
      (.cons "rows" (.num (intLexeme rows)) .nil)))

/-- `terminalInputPayload{SessionID, Data}`. -/
def inputPayload (sessionID data : String) : Json :=
  .obj (.cons "sessionId" (.str sessionID) (.cons "data" (.str data) .nil))

/-- `map[string]string{"sandboxId": sandboxID}` (a one-key map marshals
exactly like this object). -/
def startPayload (sandboxID : String) : Json :=
  .obj (.cons "sandboxId" (.str sandboxID) .nil)

/-! ### Unmarshalling inbound payload structs -/

def asciiLower (c : Char) : Char :=
  if 65 ≤ c.toNat ∧ c.toNat ≤ 90 then Char.ofNat (c.toNat + 32) else c

/-- Whether an incoming object key selects the struct field tagged
`target` (exact match, or Go's case-insensitive fallback). -/
def keyMatches (target k : String) : Bool :=
  k = target ∨ k.toList.map asciiLower = target.toList.map asciiLower

/-- Fold over the object's fields in input order: each matching string
value overwrites the accumulator, a matching `null` keeps it, a matching
value of any other type is an unmarshal error (`none`). -/
def fieldAcc (target : String) : JsonObj → String → Option String
  | .nil, cur => some cur
  | .cons k v rest, cur =>
    if keyMatches target k then
      match v with
      | .str s => fieldAcc target rest s
      | .null => fieldAcc target rest cur
      | _ => none
    else fieldAcc target rest cur

/-- `json.Unmarshal(raw, &p)` for a struct with one string field tagged
`target`: a missing payload (nil raw) and non-object, non-null documents
are errors; `null` succeeds leaving the zero value; unknown keys are
ignored. -/
def decodeStringField (raw : Option (List Char)) (target : String) : Option String :=
  match raw with
  | none => none
  | some cs =>
    match parseJson cs with
    | some .null => some ""
    | some (.obj fields) => fieldAcc target fields ""
    | _ => none

/-- Decode `terminalOutputPayload{SessionID, Data}`, returning the data
field; an unmarshal error on either field fails the whole decode. -/
def decodeOutputPayload (raw : Option (List Char)) : Option String :=
  match decodeStringField raw "sessionId", decodeStringField raw "data" with
  | some _, some d => some d
  | _, _ => none

/-! ### The Connection Session state -/

/-- Go errors the terminal code distinguishes: the `io.EOF` sentinel and
`fmt.Errorf` values carrying a message. -/
inductive GoError where
  | eof : GoError
  | errorf (msg : String) : GoError
  deriving DecidableEq

def goErrText : GoError → String
  | .eof => "EOF"
  | .errorf s => s

/-- Observable state of a `SocketIOTerminal` plus its environment: the
packets written to the socket, how often the socket was released, and the
bytes written to the local output sink.  `conn.WriteMessage` and
`conn.Close` on a live socket are modelled as succeeding. -/
structure TermState where
  nsp : String
  sandboxID : String
  closed : Bool
  session : String
  startedFlag : Bool
  sent : List (List Char)
  connCloseCount : Nat
  outputs : List (List Nat)
  deriving DecidableEq

/-- `writePacket`: fails with `io.EOF` when closed, otherwise writes the
text frame. -/
def writePacket (st : TermState) (packet : List Char) : TermState × Option GoError :=
  if st.closed then (st, some GoError.eof)
  else ({ st with sent := st.sent ++ [packet] }, none)

/-- `emit`: marshal `[event, payload]` and write `"42" + prefix + frame`
(marshalling of the fixed payload shapes cannot fail). -/
def emit (st : TermState) (event : String) (payload : Json) : TermState × Option GoError :=
  writePacket st (emitPacket st.nsp event payload)

def setSessionID (st : TermState) (sessionID : String) : TermState :=
  { st with session := sessionID }

def getSessionID (st : TermState) : String := st.session

/-- `Resize`: a no-op success before a session identifier exists,
otherwise one `terminal:resize` event. -/
def Resize (st : TermState) (cols rows : Int) : TermState × Option GoError :=
  let sessionID := getSessionID st
  if sessionID = "" then (st, none)
  else emit st "terminal:resize" (resizePayload sessionID cols rows)

/-- `Close`: first call flips the flag and releases the socket, later
calls are no-ops; both return success. -/
def Close (st : TermState) : TermState × Option GoError :=
  if st.closed then (st, none)
  else ({ st with closed := true, connCloseCount := st.connCloseCount + 1 }, none)

/-- The operations (and inbound packet deliveries) that can act on a
session, for stating state invariants. -/
inductive TermOp where
  | close : TermOp
  | resize (cols rows : Int) : TermOp
  | emitEvent (event : String) (payload : Json) : TermOp
  | write (packet : List Char) : TermOp
  | setSession (sessionID : String) : TermOp
  | recv (packet : List Char) : TermOp
  deriving DecidableEq

/-! ### The inbound loop of `Run` -/

/-- One iteration of the inbound loop on a received packet: heartbeat
pings are answered with `"3"`, message envelopes are parsed and
dispatched by event name; the result's second component is the error the
goroutine would push to `errChan` before returning (`none` = keep
looping). -/
def handleMessage (st : TermState) (packet : List Char) : TermState × Option GoError :=
  match packet with
  | [] => (st, none)
  | c :: _ =>
    if c = '2' then writePacket st ['3']
    else if c = '4' then
      match parseSocketIOEvent (packet.drop 1) with
      | none => (st, none)
      | some (event, rawPayload) =>
        if event = "terminal:started" then
          match decodeStringField rawPayload "sessionId" with
          | none => (st, some (GoError.errorf "failed to decode terminal:started payload"))
          | some sid =>
            if sid = "" then
              (st, some (GoError.errorf "failed to decode terminal:started payload"))
            else ({ setSessionID st sid with startedFlag := true }, none)
        else if event = "terminal:output" then
          match decodeOutputPayload rawPayload with
          | none => (st, none)
          | some data =>
            match base64DecodeString data with
            | some bytes => ({ st with outputs := st.outputs ++ [bytes] }, none)
            | none => ({ st with outputs := st.outputs ++ [utf8Encode data.toList] }, none)
        else if event = "terminal:error" then
          match decodeStringField rawPayload "message" with
          | none => (st, some (GoError.errorf "terminal error"))
          | some m =>
            if trimSpace m = "" then (st, some (GoError.errorf "terminal error"))
            else (st, some (GoError.errorf ("terminal error: " ++ m)))
        else if event = "terminal:ended" then (st, some GoError.eof)
        else (st, none)
    else (st, none)

/-- The inbound goroutine over a finite packet trace: process packets
until one ends the loop; when the trace is exhausted the next socket read
fails with `readErr` (a peer close manifests as such a read error). -/
def inboundLoop : TermState → List (List Char) → GoError → TermState × GoError
  | st, [], readErr => (st, readErr)
  | st, p :: ps, readErr =>
    match handleMessage st p with
    | (st', none) => inboundLoop st' ps readErr
    | (st', some e) => (st', e)

/-- `Run`'s final translation of the first `errChan` value: `io.EOF` is a
graceful end (`nil`), anything else is returned as the error. -/
def runReturnOf (e : GoError) : Option GoError :=
  if e = GoError.eof then none else some e

/-- The `select` phase of `Run`: consume inbound packets until either the
`started` signal fires (left: state plus unconsumed packets) or the loop
ends first (right: state plus the error it pushed). -/
def runPhase1 : TermState → List (List Char) → GoError →
    (TermState × List (List Char)) ⊕ (TermState × GoError)
  | st, [], readErr => .inr (st, readErr)
  | st, p :: ps, readErr =>
    match handleMessage st p with
    | (st', none) =>
      if st'.startedFlag then .inl (st', ps) else runPhase1 st' ps readErr
    | (st', some e) => .inr (st', e)

/-- The outbound goroutine: read local input in chunks, base64-encode
each chunk into a `terminal:input` event, until the local read fails with
`stdinErr` (end-of-file included); that failure is pushed to `errChan`. -/
def outboundLoop (ns session : String) : List (List Nat) → GoError → List (List Char) × GoError
  | [], stdinErr => ([], stdinErr)
  | chunk :: rest, stdinErr =>
    let pkt := emitPacket ns "terminal:input"
      (inputPayload session (String.mk (base64Encode chunk)))
    let r := outboundLoop ns session rest stdinErr
    (pkt :: r.1, r.2)

structure RunResult where
  ret : Option GoError
  finalState : TermState
  inputsSent : List (List Char)
  deriving DecidableEq

/-- Sequential model of `Run`: send `terminal:start`, run the select
phase, and — once the session is active — run both forwarding loops to
completion.  `inboundFirst` resolves the scheduling choice of which
loop's terminal value arrives on `errChan` first; the outbound loop reads
the session identifier once, when it starts. -/
def runModel (st0 : TermState) (packets : List (List Char)) (readErr : GoError)
    (chunks : List (List Nat)) (stdinErr : GoError) (inboundFirst : Bool) : RunResult :=
  match emit st0 "terminal:start" (startPayload st0.sandboxID) with
  | (st1, some e) =>
    { ret := some (GoError.errorf ("failed to start terminal: " ++ goErrText e)),
      finalState := st1, inputsSent := [] }
  | (st1, none) =>
    match runPhase1 st1 packets readErr with
    | .inr (st2, e) =>
      { ret := runReturnOf e, finalState := st2, inputsSent := [] }
    | .inl (st2, restPackets) =>
      let inbound := inboundLoop st2 restPackets readErr
      let outbound := outboundLoop st2.nsp st2.session chunks stdinErr
      { ret := runReturnOf (if inboundFirst then inbound.2 else outbound.2),
        finalState := inbound.1, inputsSent := outbound.1 }

/-- Apply one operation or packet delivery to the session state. -/
def applyOp (st : TermState) : TermOp → TermState × Option GoError
  | .close => Close st
  | .resize cols rows => Resize st cols rows
  | .emitEvent event payload => emit st event payload
  | .write packet => writePacket st packet
  | .setSession sessionID => (setSessionID st sessionID, none)
  | .recv packet => handleMessage st packet

/-! ### Helper measures and predicates used by the theorems -/

mutual
def Json.fsize : Json → Nat
  | .arr a => JsonArr.fsize a + 1
  | .obj f => JsonObj.fsize f + 1
  | _ => 1

def JsonArr.fsize : JsonArr → Nat
  | .nil => 0
  | .cons v tl => Json.fsize v + JsonArr.fsize tl + 1

def JsonObj.fsize : JsonObj → Nat
  | .nil => 0
  | .cons _ v tl => Json.fsize v + JsonObj.fsize tl + 1
end

/-- The remainder after a parsed value must not continue a number token
(arrays and objects provide `,` `]` `}`, documents end or continue with
whitespace). -/
def numBoundary : List Char → Bool
  | [] => true
  | c :: _ => !(isNumChar c)

/-- First characters a marshalled well-formed value can start with. -/
def goodHead (c : Char) : Bool :=
  c = 'n' ∨ c = 't' ∨ c = 'f' ∨ c = '"' ∨ c = '[' ∨ c = '{' ∨ c = '-' ∨ isDigit c

/-- The session identifier a packet would install: the `sessionId` of a
decodable `terminal:started` message envelope with a non-empty
identifier, mirroring the started branch of the inbound loop. -/
def startedIdOf (p : List Char) : Option String :=
  match p with
  | [] => none
  | c :: _ =>
    if c = '2' then none
    else if c = '4' then
      match parseSocketIOEvent (p.drop 1) with
      | none => none
      | some (event, rawPayload) =>
        if event = "terminal:started" then
          match decodeStringField rawPayload "sessionId" with
          | none => none
          | some sid => if sid = "" then none else some sid
        else none
    else none

/-! ### Concrete states and packets used by witnesses -/

def stLive : TermState :=
  { nsp := "/terminal", sandboxID := "sb", closed := false, session := "s1",
    startedFlag := true, sent := [], connCloseCount := 0, outputs := [] }

def stNoSession : TermState := { stLive with session := "" }

def stClosed : TermState := { stLive with closed := true, connCloseCount := 1 }

def stClosedNoSession : TermState := { stClosed with session := "" }

def stFresh : TermState := { stNoSession with startedFlag := false }

def pktStartedA : List Char := "42[\"terminal:started\",\x7b\"sessionId\":\"a\"\x7d]".toList

def pktStartedB : List Char := "42[\"terminal:started\",\x7b\"sessionId\":\"b\"\x7d]".toList

def pktEnded : List Char := "42[\"terminal:ended\",\x7b\"sessionId\":\"a\"\x7d]".toList

def pktError : List Char := "42[\"terminal:error\",\x7b\"message\":\"boom\"\x7d]".toList

def pktErrorEmpty : List Char := "42[\"terminal:error\",\x7b\"message\":\"  \"\x7d]".toList

/-! ## Theorems

### Whitespace, hex and string-escape round trips -/

theorem skipWs_cons (c : Char) (r : List Char) (h : isJsonWs c = false) :
    skipWs (c :: r) = c :: r := by
  simp [skipWs, List.dropWhile, h]

theorem hexVal_hexDigitChar : ∀ d < 16, hexVal (hexDigitChar d) = some d := by decide

theorem parseHex4_hex4 (n : Nat) (h : n < 65536) (rest : List Char) :
    parseHex4 (hex4 n ++ rest) = some (n, rest) := by
  have h1 : n / 4096 % 16 < 16 := Nat.mod_lt _ (by omega)
  have h2 : n / 256 % 16 < 16 := Nat.mod_lt _ (by omega)
  have h3 : n / 16 % 16 < 16 := Nat.mod_lt _ (by omega)
  have h4 : n % 16 < 16 := Nat.mod_lt _ (by omega)
  simp only [hex4, List.cons_append, List.nil_append, parseHex4,
    hexVal_hexDigitChar _ h1, hexVal_hexDigitChar _ h2,
    hexVal_hexDigitChar _ h3, hexVal_hexDigitChar _ h4]
  congr 2
  omega

theorem decodeUnicodeEscape_plain (n : Nat) (h : n < 55296) (rest : List Char) :
    decodeUnicodeEscape n rest = (Char.ofNat n, rest) := by
  unfold decodeUnicodeEscape
  rw [if_neg (by omega), if_neg (by omega)]

theorem parseStringBody_escapeChar (c : Char) (tail : List Char) (fuel : Nat) :
    parseStringBody (fuel + 1) (escapeChar c ++ tail)
      = (parseStringBody fuel tail).map (fun p => (c :: p.1, p.2)) := by
  unfold escapeChar
  split_ifs with h1 h2 h3 h4 h5 h6
  · subst h1; simp [parseStringBody]
  · subst h2; simp [parseStringBody]
  · subst h3; simp [parseStringBody]
  · subst h4; simp [parseStringBody]
  · subst h5; simp [parseStringBody]
  · have hlt : c.toNat < 55296 := by
      rcases h6 with h | h | h | h | h | h
      · omega
      · subst h; decide
      · subst h; decide
      · subst h; decide
      · omega
      · omega
    have h16 : c.toNat < 65536 := by omega
    have hhex := parseHex4_hex4 c.toNat h16 tail
    simp [parseStringBody, hhex, decodeUnicodeEscape_plain c.toNat hlt tail,
      Char.ofNat_toNat]
  · have hc32 : ¬(c.toNat < 32) := by push_neg at h6 ⊢; exact h6.1
    simp [parseStringBody, h1, h2, hc32]

theorem length_le_escapeChars (l : List Char) : l.length ≤ (escapeChars l).length := by
  induction l with
  | nil => simp [escapeChars]
  | cons c cs ih =>
    have h : 1 ≤ (escapeChar c).length := by
      unfold escapeChar
      split_ifs <;> simp
    simp only [escapeChars, List.length_append, List.length_cons]
    omega

theorem parseStringBody_escapeChars (l : List Char) :
    ∀ (fuel : Nat) (rest : List Char), l.length < fuel →
      parseStringBody fuel (escapeChars l ++ '"' :: rest) = some (l, rest) := by
  induction l with
  | nil =>
    intro fuel rest h
    match fuel, h with
    | fuel + 1, _ => simp [escapeChars, parseStringBody]
  | cons c cs ih =>
    intro fuel rest h
    match fuel, h with
    | fuel + 1, h =>
      rw [escapeChars, List.append_assoc, parseStringBody_escapeChar,
        ih fuel rest (by simpa using Nat.lt_of_succ_lt_succ h)]
      rfl

/-! ### Number lexeme facts -/

theorem all_takeWhile_self (p : Char → Bool) (l : List Char) :
    (l.takeWhile p).all p = true := by
  induction l with
  | nil => rfl
  | cons c cs ih =>
    by_cases h : p c
    · simp [List.takeWhile, h, ih]
    · simp [List.takeWhile, h]

theorem all_isNumChar_of_isDigit (l : List Char) (h : l.all isDigit = true) :
    l.all isNumChar = true := by
  induction l with
  | nil => rfl
  | cons c cs ih =>
    simp only [List.all_cons, Bool.and_eq_true] at h ⊢
    exact ⟨by simp [isNumChar, h.1], ih h.2⟩

theorem numIntPart_all (cs r : List Char) (h : numIntPart cs = some r) :
    ∃ pre, cs = pre ++ r ∧ pre.all isNumChar = true := by
  cases cs with
  | nil => simp [numIntPart] at h
  | cons c rest =>
    simp only [numIntPart] at h
    split_ifs at h with h0 hd
    · refine ⟨[c], ?_, ?_⟩
      · exact congrArg (c :: ·) (Option.some.inj h)
      · subst h0; decide
    · refine ⟨c :: rest.takeWhile isDigit, ?_, ?_⟩
      · rw [← Option.some.inj h]
        simp [List.takeWhile_append_dropWhile]
      · simp only [List.all_cons, Bool.and_eq_true]
        exact ⟨by simp [isNumChar, hd],
          all_isNumChar_of_isDigit _ (all_takeWhile_self isDigit rest)⟩

theorem numFracPart_all (cs r : List Char) (h : numFracPart cs = some r) :
    ∃ pre, cs = pre ++ r ∧ pre.all isNumChar = true := by
  unfold numFracPart at h
  split at h
  · -- cs = '.' :: rest
    next rest =>
    split at h
    · next c rest2 =>
      split_ifs at h with hd
      refine ⟨'.' :: (c :: rest2).takeWhile isDigit, ?_, ?_⟩
      · rw [← Option.some.inj h]
        simp [List.takeWhile_append_dropWhile]
      · simp only [List.all_cons, Bool.and_eq_true]
        refine ⟨by decide, all_isNumChar_of_isDigit _ (all_takeWhile_self isDigit _)⟩
    · exact absurd h (by simp)
  · exact ⟨[], by simpa using Option.some.inj h, rfl⟩

theorem numExpPart_all (cs r : List Char) (h : numExpPart cs = some r) :
    ∃ pre, cs = pre ++ r ∧ pre.all isNumChar = true := by
  unfold numExpPart at h
  split at h
  · exact ⟨[], by simpa using Option.some.inj h, rfl⟩
  · next e rest =>
    split_ifs at h with he
    · cases rest with
      | nil => simp at h
      | cons s rest' =>
        dsimp only at h
        have hnume : isNumChar e = true := by
          rcases he with he | he <;> (subst he; decide)
        by_cases hs : s = '+' ∨ s = '-'
        · rw [if_pos hs] at h
          cases rest' with
          | nil => simp at h
          | cons c rest'' =>
            dsimp only at h
            split_ifs at h with hd
            refine ⟨e :: s :: (c :: rest'').takeWhile isDigit, ?_, ?_⟩
            · rw [← Option.some.inj h]
              simp [List.takeWhile_append_dropWhile]
            · simp only [List.all_cons, Bool.and_eq_true]
              refine ⟨hnume, ?_, all_isNumChar_of_isDigit _ (all_takeWhile_self isDigit _)⟩
              rcases hs with hs | hs <;> (subst hs; decide)
        · rw [if_neg hs] at h
          dsimp only at h
          split_ifs at h with hd
          refine ⟨e :: (s :: rest').takeWhile isDigit, ?_, ?_⟩
          · rw [← Option.some.inj h]
            simp [List.takeWhile_append_dropWhile]
          · simp only [List.all_cons, Bool.and_eq_true]
            refine ⟨hnume, all_isNumChar_of_isDigit _ (all_takeWhile_self isDigit _)⟩
    · exact ⟨[], by simpa using Option.some.inj h, rfl⟩

/-- A valid number lexeme consists entirely of number characters. -/
theorem validNumberLexeme_all (lex : List Char) (h : validNumberLexeme lex = true) :
    lex.all isNumChar = true := by
  unfold validNumberLexeme at h
  split at h
  · -- lex = '-' :: rcs
    next rcs =>
    dsimp only at h
    rcases hi : numIntPart rcs with _ | r2
    · rw [hi] at h; simp at h
    · rw [hi] at h
      dsimp only at h
      rcases hf : numFracPart r2 with _ | r3
      · rw [hf] at h; simp at h
      · rw [hf] at h
        dsimp only at h
        rcases hx : numExpPart r3 with _ | r4
        · rw [hx] at h; simp at h
        · rw [hx] at h
          have hr4 : r4 = [] := by
            revert h
            cases r4 <;> simp
          subst hr4
          obtain ⟨p1, hp1, ha1⟩ := numIntPart_all rcs r2 hi
          obtain ⟨p2, hp2, ha2⟩ := numFracPart_all r2 r3 hf
          obtain ⟨p3, hp3, ha3⟩ := numExpPart_all r3 [] hx
          subst hp1 hp2 hp3
          simp_all [List.all_append]
          decide
  · dsimp only at h
    rcases hi : numIntPart lex with _ | r2
    · rw [hi] at h; simp at h
    · rw [hi] at h
      dsimp only at h
      rcases hf : numFracPart r2 with _ | r3
      · rw [hf] at h; simp at h
      · rw [hf] at h
        dsimp only at h
        rcases hx : numExpPart r3 with _ | r4
        · rw [hx] at h; simp at h
        · rw [hx] at h
          have hr4 : r4 = [] := by
            revert h
            cases r4 <;> simp
          subst hr4
          obtain ⟨p1, hp1, ha1⟩ := numIntPart_all lex r2 hi
          obtain ⟨p2, hp2, ha2⟩ := numFracPart_all r2 r3 hf
          obtain ⟨p3, hp3, ha3⟩ := numExpPart_all r3 [] hx
          subst hp1 hp2 hp3
          simp_all [List.all_append]

/-- A valid number lexeme starts with `-` or a digit. -/
theorem validNumberLexeme_head (lex : List Char) (h : validNumberLexeme lex = true) :
    ∃ c t, lex = c :: t ∧ (c = '-' ∨ isDigit c = true) := by
  unfold validNumberLexeme at h
  split at h
  · next rcs => exact ⟨'-', rcs, rfl, Or.inl rfl⟩
  · dsimp only at h
    cases lex with
    | nil => simp [numIntPart] at h
    | cons c t =>
      refine ⟨c, t, rfl, Or.inr ?_⟩
      revert h
      simp only [numIntPart]
      split_ifs with h0 hd
      · subst h0; intro _; decide
      · intro _; exact hd
      · simp

/-! ### Head-character facts and marshal shapes -/

theorem numHead_facts (c : Char) (h : c = '-' ∨ isDigit c = true) :
    isJsonWs c = false ∧ c ≠ '"' ∧ c ≠ '[' ∧ c ≠ '{' ∧ c ≠ 't' ∧ c ≠ 'f' ∧
      c ≠ 'n' ∧ c ≠ ']' ∧ c ≠ '}' := by
  rcases h with h | h
  · subst h; decide
  · have hb : 48 ≤ c.toNat ∧ c.toNat ≤ 57 := by simpa [isDigit] using h
    refine ⟨?_, ?_, ?_, ?_, ?_, ?_, ?_, ?_, ?_⟩
    · simp only [isJsonWs, decide_eq_false_iff_not]
      rintro (rfl | rfl | rfl | rfl) <;> (revert hb; decide)
    all_goals (rintro rfl; revert hb; decide)

theorem goodHead_facts (c : Char) (h : goodHead c = true) :
    isJsonWs c = false ∧ c ≠ ']' ∧ c ≠ '}' := by
  have h' : c = 'n' ∨ c = 't' ∨ c = 'f' ∨ c = '"' ∨ c = '[' ∨ c = '{' ∨
      c = '-' ∨ isDigit c = true := by simpa [goodHead] using h
  rcases h' with rfl | rfl | rfl | rfl | rfl | rfl | h''
  · decide
  · decide
  · decide
  · decide
  · decide
  · decide
  · obtain ⟨h1, _, _, _, _, _, _, h8, h9⟩ := numHead_facts c h''
    exact ⟨h1, h8, h9⟩

theorem marshal_goodHead (v : Json) (h : Json.WF v = true) :
    ∃ c t, Json.marshal v = c :: t ∧ goodHead c = true := by
  cases v with
  | null => exact ⟨'n', ['u', 'l', 'l'], rfl, by decide⟩
  | bool b =>
    cases b with
    | false => exact ⟨'f', "alse".toList, rfl, by decide⟩
    | true => exact ⟨'t', "rue".toList, rfl, by decide⟩
  | num lex =>
    obtain ⟨c, t, hct, hc⟩ := validNumberLexeme_head lex (by simpa [Json.WF] using h)
    refine ⟨c, t, by simp [Json.marshal, hct], ?_⟩
    rcases hc with rfl | hd
    · decide
    · simp [goodHead, hd]
  | str s => exact ⟨'"', escapeChars s.toList ++ ['"'], rfl, by decide⟩
  | arr a => exact ⟨'[', JsonArr.marshalElems a ++ [']'], rfl, by decide⟩
  | obj f => exact ⟨'{', JsonObj.marshalFields f ++ ['}'], rfl, by decide⟩

mutual
theorem fsize_le_marshalLen (v : Json) (h : Json.WF v = true) :
    Json.fsize v ≤ (Json.marshal v).length := by
  cases v with
  | null => decide
  | bool b => cases b <;> decide
  | num lex =>
    obtain ⟨c, t, hct, _⟩ := validNumberLexeme_head lex (by simpa [Json.WF] using h)
    simp [Json.fsize, Json.marshal, hct]
  | str s => simp [Json.fsize, Json.marshal, marshalString]
  | arr a =>
    have := asize_le_marshalLen a (by simpa [Json.WF] using h)
    simp only [Json.fsize, Json.marshal, List.length_cons, List.length_append,
      List.length_singleton]
    omega
  | obj f =>
    have := osize_le_marshalLen f (by simpa [Json.WF] using h)
    simp only [Json.fsize, Json.marshal, List.length_cons, List.length_append,
      List.length_singleton]
    omega

theorem asize_le_marshalLen (a : JsonArr) (h : JsonArr.WF a = true) :
    JsonArr.fsize a ≤ (JsonArr.marshalElems a).length + 1 := by
  cases a with
  | nil => decide
  | cons v tl =>
    obtain ⟨h1, h2⟩ : Json.WF v = true ∧ JsonArr.WF tl = true := by
      simpa [JsonArr.WF, Bool.and_eq_true] using h
    cases tl with
    | nil =>
      have := fsize_le_marshalLen v h1
      simp only [JsonArr.fsize, JsonArr.marshalElems]
      omega
    | cons w tl' =>
      have hv := fsize_le_marshalLen v h1
      have ht := asize_le_marshalLen (.cons w tl') h2
      simp only [JsonArr.fsize, JsonArr.marshalElems, List.length_append,
        List.length_cons] at *
      omega

theorem osize_le_marshalLen (f : JsonObj) (h : JsonObj.WF f = true) :
    JsonObj.fsize f ≤ (JsonObj.marshalFields f).length + 1 := by
  cases f with
  | nil => decide
  | cons k v tl =>
    obtain ⟨h1, h2⟩ : Json.WF v = true ∧ JsonObj.WF tl = true := by
      simpa [JsonObj.WF, Bool.and_eq_true] using h
    cases tl with
    | nil =>
      have := fsize_le_marshalLen v h1
      simp only [JsonObj.fsize, JsonObj.marshalFields, List.length_append,
        List.length_cons]
      omega
    | cons k2 v2 tl' =>
      have hv := fsize_le_marshalLen v h1
      have ht := osize_le_marshalLen (.cons k2 v2 tl') h2
      simp only [JsonObj.fsize, JsonObj.marshalFields, List.length_append,
        List.length_cons] at *
      omega
end

theorem takeWhile_append_boundary (p : Char → Bool) (l r : List Char)
    (hl : l.all p = true) (hr : ∀ c, r.head? = some c → p c = false) :
    (l ++ r).takeWhile p = l ∧ (l ++ r).dropWhile p = r := by
  induction l with
  | nil =>
    cases r with
    | nil => simp
    | cons c rs =>
      have := hr c rfl
      simp [List.takeWhile, List.dropWhile, this]
  | cons c cs ih =>
    simp only [List.all_cons, Bool.and_eq_true] at hl
    have hrec := ih hl.2
    simp [List.takeWhile, List.dropWhile, hl.1, hrec.1, hrec.2]

/-! ### The value round trip: parsing a marshalled value -/

theorem fsize_pos (v : Json) : 1 ≤ Json.fsize v := by
  cases v <;> simp [Json.fsize]

theorem numBoundary_head (r : List Char) (hb : numBoundary r = true) :
    ∀ c, r.head? = some c → isNumChar c = false := by
  intro c hc
  cases r with
  | nil => simp at hc
  | cons d ds =>
    obtain rfl : d = c := by simpa using hc
    simpa [numBoundary] using hb

mutual
theorem parseValue_marshal (v : Json) (rest : List Char) (fuel : Nat)
    (hwf : Json.WF v = true) (hfuel : Json.fsize v ≤ fuel)
    (hb : numBoundary rest = true) :
    parseValue fuel (Json.marshal v ++ rest) = some (v, rest) := by
  match fuel, hfuel with
  | 0, hfuel => exact absurd hfuel (by have := fsize_pos v; omega)
  | fuel + 1, hfuel =>
  cases v with
  | null => simp [Json.marshal, parseValue, skipWs, List.dropWhile, isJsonWs]
  | bool b => cases b <;> simp [Json.marshal, parseValue, skipWs, List.dropWhile, isJsonWs]
  | num lex =>
    have hlex : validNumberLexeme lex = true := by simpa [Json.WF] using hwf
    obtain ⟨c, t, rfl, hc⟩ := validNumberLexeme_head lex hlex
    obtain ⟨hws, hq, hlb, hob, ht, hf, hn, _, _⟩ := numHead_facts c hc
    have hall : (c :: t).all isNumChar = true := validNumberLexeme_all _ hlex
    obtain ⟨htw, hdw⟩ := takeWhile_append_boundary isNumChar (c :: t) rest hall
      (numBoundary_head rest hb)
    simp only [Json.marshal, List.cons_append, parseValue, skipWs_cons c _ hws]
    rw [if_neg hq, if_neg hlb, if_neg hob, if_neg ht, if_neg hf, if_neg hn, if_pos hc]
    simp only [← List.cons_append, htw, hdw, hlex, if_pos]
  | str s =>
    have hlen : s.toList.length <
        (escapeChars s.toList ++ '"' :: rest).length + 1 := by
      have := length_le_escapeChars s.toList
      simp only [List.length_append, List.length_cons]
      omega
    simp only [Json.marshal, marshalString, List.cons_append, List.append_assoc,
      List.cons_append, List.nil_append, parseValue,
      skipWs_cons '"' _ (by decide), if_pos rfl]
    rw [parseStringBody_escapeChars s.toList _ rest hlen]
    rfl
  | arr a =>
    cases a with
    | nil =>
      simp [Json.marshal, JsonArr.marshalElems, parseValue, skipWs, List.dropWhile, isJsonWs]
    | cons v0 tl =>
      have hwfa : JsonArr.WF (.cons v0 tl) = true := by simpa [Json.WF] using hwf
      obtain ⟨hwfv0, hwftl⟩ : Json.WF v0 = true ∧ JsonArr.WF tl = true := by
        simpa [JsonArr.WF, Bool.and_eq_true] using hwfa
      obtain ⟨c0, t0, hmv, hgh⟩ := marshal_goodHead v0 hwfv0
      obtain ⟨hws0, hne0, _⟩ := goodHead_facts c0 hgh
      obtain ⟨t1, hshape⟩ : ∃ t1, JsonArr.marshalElems (.cons v0 tl) ++ ']' :: rest
          = c0 :: t1 := by
        cases tl with
        | nil => exact ⟨t0 ++ ']' :: rest, by simp [JsonArr.marshalElems, hmv]⟩
        | cons w tl' =>
          exact ⟨t0 ++ ',' :: (JsonArr.marshalElems (.cons w tl') ++ ']' :: rest),
            by simp [JsonArr.marshalElems, hmv]⟩
      have hfuel1 : JsonArr.fsize (.cons v0 tl) ≤ fuel := by
        simp only [Json.fsize] at hfuel
        omega
      have hrec := parseArrayElems_marshal (.cons v0 tl) rest fuel
        (by intro hcon; cases hcon) hwfa hfuel1
      simp only [Json.marshal, List.cons_append, List.append_assoc,
        List.cons_append, List.nil_append, parseValue,
        skipWs_cons '[' _ (by decide)]
      rw [if_neg (by decide)]
      simp only [if_true]
      rw [hshape, skipWs_cons c0 _ hws0, ← hshape]
      split
      · next r heq =>
        rw [hshape] at heq
        injection heq with h1 _
        exact absurd h1 hne0
      · rw [hrec]
        rfl
  | obj f =>
    cases f with
    | nil =>
      simp [Json.marshal, JsonObj.marshalFields, parseValue, skipWs, List.dropWhile, isJsonWs]
    | cons k0 v0 tl =>
      have hwff : JsonObj.WF (.cons k0 v0 tl) = true := by simpa [Json.WF] using hwf
      obtain ⟨t1, hshape⟩ : ∃ t1, JsonObj.marshalFields (.cons k0 v0 tl) ++ '}' :: rest
          = '"' :: t1 := by
        cases tl with
        | nil =>
          exact ⟨escapeChars k0.toList ++ '"' :: ':' :: (Json.marshal v0 ++ '}' :: rest),
            by simp [JsonObj.marshalFields, marshalString]⟩
        | cons k2 v2 tl' =>
          exact ⟨escapeChars k0.toList ++ '"' :: ':' :: (Json.marshal v0 ++
              ',' :: (JsonObj.marshalFields (.cons k2 v2 tl') ++ '}' :: rest)),
            by simp [JsonObj.marshalFields, marshalString]⟩
      have hfuel1 : JsonObj.fsize (.cons k0 v0 tl) ≤ fuel := by
        simp only [Json.fsize] at hfuel
        omega
      have hrec := parseObjFields_marshal (.cons k0 v0 tl) rest fuel
        (by intro hcon; cases hcon) hwff hfuel1
      simp only [Json.marshal, List.cons_append, List.append_assoc,
        List.cons_append, List.nil_append, parseValue,
        skipWs_cons '{' _ (by decide)]
      rw [if_neg (by decide), if_neg (by decide)]
      simp only [if_true]
      rw [hshape, skipWs_cons '"' _ (by decide), ← hshape]
      split
      · next r heq =>
        rw [hshape] at heq
        injection heq with h1 _
        exact absurd h1 (by decide)
      · rw [hrec]
        rfl

theorem parseArrayElems_marshal (a : JsonArr) (rest : List Char) (fuel : Nat)
    (hne : a ≠ .nil) (hwf : JsonArr.WF a = true)
    (hfuel : JsonArr.fsize a ≤ fuel) :
    parseArrayElems fuel (JsonArr.marshalElems a ++ ']' :: rest) = some (a, rest) := by
  match a, hne with
  | .nil, hne => exact absurd rfl hne
  | .cons v tl, _ =>
  match fuel, hfuel with
  | 0, hfuel =>
    exact absurd hfuel (by have := fsize_pos v; simp only [JsonArr.fsize]; omega)
  | fuel + 1, hfuel =>
  obtain ⟨hwfv, hwftl⟩ : Json.WF v = true ∧ JsonArr.WF tl = true := by
    simpa [JsonArr.WF, Bool.and_eq_true] using hwf
  have hfv : Json.fsize v ≤ fuel := by
    simp only [JsonArr.fsize] at hfuel
    omega
  cases tl with
  | nil =>
    have hv := parseValue_marshal v (']' :: rest) fuel hwfv hfv rfl
    simp only [JsonArr.marshalElems, parseArrayElems, hv]
    rfl
  | cons w tl' =>
    have hv := parseValue_marshal v
      (',' :: (JsonArr.marshalElems (.cons w tl') ++ ']' :: rest)) fuel hwfv hfv rfl
    have htl : JsonArr.fsize (.cons w tl') ≤ fuel := by
      simp only [JsonArr.fsize] at hfuel ⊢
      omega
    have hrec := parseArrayElems_marshal (.cons w tl') rest fuel
      (by intro hcon; cases hcon) hwftl htl
    simp only [JsonArr.marshalElems, List.append_assoc, List.cons_append,
      parseArrayElems, hv]
    rw [skipWs_cons ',' _ (by decide)]
    simp [hrec]

theorem parseObjFields_marshal (f : JsonObj) (rest : List Char) (fuel : Nat)
    (hne : f ≠ .nil) (hwf : JsonObj.WF f = true)
    (hfuel : JsonObj.fsize f ≤ fuel) :
    parseObjFields fuel (JsonObj.marshalFields f ++ '}' :: rest) = some (f, rest) := by
  match f, hne with
  | .nil, hne => exact absurd rfl hne
  | .cons k v tl, _ =>
  match fuel, hfuel with
  | 0, hfuel =>
    exact absurd hfuel (by have := fsize_pos v; simp only [JsonObj.fsize]; omega)
  | fuel + 1, hfuel =>
  obtain ⟨hwfv, hwftl⟩ : Json.WF v = true ∧ JsonObj.WF tl = true := by
    simpa [JsonObj.WF, Bool.and_eq_true] using hwf
  have hfv : Json.fsize v ≤ fuel := by
    simp only [JsonObj.fsize] at hfuel
    omega
  cases tl with
  | nil =>
    have hklen : k.toList.length <
        (escapeChars k.toList ++ '"' :: ':' :: (Json.marshal v ++ '}' :: rest)).length + 1 := by
      have := length_le_escapeChars k.toList
      simp only [List.length_append, List.length_cons]
      omega
    have hv := parseValue_marshal v ('}' :: rest) fuel hwfv hfv rfl
    simp only [JsonObj.marshalFields, marshalString, List.cons_append,
      List.append_assoc, List.cons_append, List.nil_append, parseObjFields,
      skipWs_cons '"' _ (by decide)]
    rw [parseStringBody_escapeChars k.toList _ _ hklen]
    simp [skipWs_cons, hv, isJsonWs]
  | cons k2 v2 tl' =>
    have hklen : k.toList.length <
        (escapeChars k.toList ++ '"' :: ':' :: (Json.marshal v ++
          ',' :: (JsonObj.marshalFields (.cons k2 v2 tl') ++ '}' :: rest))).length + 1 := by
      have := length_le_escapeChars k.toList
      simp only [List.length_append, List.length_cons]
      omega
    have hv := parseValue_marshal v
      (',' :: (JsonObj.marshalFields (.cons k2 v2 tl') ++ '}' :: rest)) fuel hwfv hfv rfl
    have htl : JsonObj.fsize (.cons k2 v2 tl') ≤ fuel := by
      simp only [JsonObj.fsize] at hfuel ⊢
      omega
    have hrec := parseObjFields_marshal (.cons k2 v2 tl') rest fuel
      (by intro hcon; cases hcon) hwftl htl
    simp only [JsonObj.marshalFields, marshalString, List.cons_append,
      List.append_assoc, List.cons_append, List.nil_append, parseObjFields,
      skipWs_cons '"' _ (by decide)]
    rw [parseStringBody_escapeChars k.toList _ _ hklen]
    simp [skipWs_cons, hv, hrec, isJsonWs]
end

/-! ### Raw-element extraction on encoder output -/

theorem rawOfConsumed_append (a r : List Char) : rawOfConsumed (a ++ r) r = a := by
  simp only [rawOfConsumed, List.length_append, Nat.add_sub_cancel]
  exact List.take_left a r

theorem parseMessageElems_last (payload : Json) (fuel : Nat)
    (hwf : Json.WF payload = true) (hfuel : Json.fsize payload + 1 ≤ fuel) :
    parseMessageElems fuel (Json.marshal payload ++ [']'])
      = some ([Json.marshal payload], []) := by
  match fuel, hfuel with
  | fuel + 1, hfuel =>
  obtain ⟨c0, t0, hmv, hgh⟩ := marshal_goodHead payload hwf
  obtain ⟨hws0, _, _⟩ := goodHead_facts c0 hgh
  have hshape : Json.marshal payload ++ [']'] = c0 :: (t0 ++ [']']) := by
    simp [hmv]
  have hv : parseValue fuel (Json.marshal payload ++ ']' :: [])
      = some (payload, [']']) :=
    parseValue_marshal payload [']'] fuel hwf (by omega) rfl
  simp only [parseMessageElems]
  rw [hshape, skipWs_cons c0 _ hws0, ← hshape]
  rw [show Json.marshal payload ++ [']'] = Json.marshal payload ++ ']' :: [] from rfl,
    hv]
  dsimp only
  rw [show rawOfConsumed (Json.marshal payload ++ ']' :: []) [']']
      = Json.marshal payload from rawOfConsumed_append _ _]
  rw [skipWs_cons ']' _ (by decide)]
  rfl

theorem parseMessageElems_two (event : String) (payload : Json) (fuel : Nat)
    (hwf : Json.WF payload = true) (hfuel : Json.fsize payload + 2 ≤ fuel) :
    parseMessageElems fuel
      (marshalString event ++ ',' :: (Json.marshal payload ++ [']']))
      = some ([marshalString event, Json.marshal payload], []) := by
  match fuel, hfuel with
  | fuel + 1, hfuel =>
  have hv : parseValue fuel
      (Json.marshal (.str event) ++ ',' :: (Json.marshal payload ++ [']']))
      = some (.str event, ',' :: (Json.marshal payload ++ [']'])) :=
    parseValue_marshal (.str event) _ fuel rfl (by simp [Json.fsize]; omega) rfl
  have hlast := parseMessageElems_last payload fuel hwf (by omega)
  simp only [parseMessageElems]
  rw [show marshalString event ++ ',' :: (Json.marshal payload ++ [']'])
      = '"' :: (escapeChars event.toList ++ ['"'] ++
          (',' :: (Json.marshal payload ++ [']']))) from by simp [marshalString]]
  rw [skipWs_cons '"' _ (by decide)]
  rw [show '"' :: (escapeChars event.toList ++ ['"'] ++
        (',' :: (Json.marshal payload ++ [']'])))
      = Json.marshal (.str event) ++ ',' :: (Json.marshal payload ++ [']']) from by
    simp [Json.marshal, marshalString]]
  rw [hv]
  show Option.map
      (fun p => (rawOfConsumed ((Json.str event).marshal ++ ',' :: (payload.marshal ++ [']']))
          (',' :: (payload.marshal ++ [']'])) :: p.1, p.2))
      (parseMessageElems fuel (payload.marshal ++ [']']))
    = some ([marshalString event, payload.marshal], [])
  rw [hlast,
    rawOfConsumed_append ((Json.str event).marshal) (',' :: (payload.marshal ++ [']']))]
  rfl

/-- The frame built by `emit` unmarshals to exactly its two raw elements. -/
theorem parseJsonArrayRaw_frame (event : String) (payload : Json)
    (hwf : Json.WF payload = true) :
    parseJsonArrayRaw (marshalEventFrame event payload)
      = some [marshalString event, Json.marshal payload] := by
  have heq : marshalEventFrame event payload
      = '[' :: '"' :: (escapeChars event.toList ++ ['"'] ++
          ',' :: (Json.marshal payload ++ [']'])) := by
    simp [marshalEventFrame, marshalString]
  have hlen : Json.fsize payload + 2 ≤
      ('[' :: '"' :: (escapeChars event.toList ++ ['"'] ++
        ',' :: (Json.marshal payload ++ [']']))).length + 1 := by
    have h1 := fsize_le_marshalLen payload hwf
    simp only [List.length_cons, List.length_append]
    omega
  have htwo := parseMessageElems_two event payload
    (('[' :: '"' :: (escapeChars event.toList ++ ['"'] ++
      ',' :: (Json.marshal payload ++ [']']))).length + 1) hwf hlen
  have htwo2 : parseMessageElems
      (('[' :: '"' :: (escapeChars event.toList ++ ['"'] ++
        ',' :: (Json.marshal payload ++ [']']))).length + 1)
      ('"' :: (escapeChars event.toList ++ ['"'] ++
        ',' :: (Json.marshal payload ++ [']'])))
      = some ([marshalString event, Json.marshal payload], []) := by
    rw [show ('"' :: (escapeChars event.toList ++ ['"'] ++
          ',' :: (Json.marshal payload ++ [']'])))
        = marshalString event ++ ',' :: (Json.marshal payload ++ [']']) from by
      simp [marshalString]]
    exact htwo
  rw [heq]
  show (match parseMessageElems
      (('[' :: '"' :: (escapeChars event.toList ++ ['"'] ++
        ',' :: (Json.marshal payload ++ [']']))).length + 1)
      ('"' :: (escapeChars event.toList ++ ['"'] ++
        ',' :: (Json.marshal payload ++ [']']))) with
    | some (elems, r) => if (skipWs r).isEmpty = true then some elems else none
    | none => none)
    = some [marshalString event, Json.marshal payload]
  rw [htwo2]
  rfl

/-- Unmarshalling a marshalled string value yields the string back. -/
theorem parseJsonString_marshalString (s : String) :
    parseJsonString (marshalString s) = some s := by
  have hv : parseValue ((marshalString s).length + 1) (Json.marshal (.str s) ++ [])
      = some (.str s, []) :=
    parseValue_marshal (.str s) [] ((marshalString s).length + 1) rfl
      (by simp [Json.fsize]) rfl
  simp only [List.append_nil, Json.marshal] at hv
  simp only [parseJsonString, hv]
  rfl

/-! ### The event round trip (claim C1) -/

theorem contains_comma_append (l r : List Char) :
    (l ++ ',' :: r).contains ',' = true := by
  induction l with
  | nil => simp [List.contains_cons]
  | cons c cs ih => simp [List.contains_cons, ih]

theorem all_ne_comma (l : List Char) (h : ',' ∉ l) :
    l.all (fun c => c != ',') = true := by
  simp only [List.all_eq_true, bne_iff_ne, ne_eq]
  intro c hc hcomma
  exact h (hcomma ▸ hc)

theorem parseSocketIOEvent_root (event : String) (payload : Json)
    (hev : event ≠ "") (hwf : Json.WF payload = true) :
    parseSocketIOEvent ('2' :: marshalEventFrame event payload)
      = some (event, some (Json.marshal payload)) := by
  have hfr := parseJsonArrayRaw_frame event payload hwf
  have hstr := parseJsonString_marshalString event
  show (match parseJsonArrayRaw (marshalEventFrame event payload) with
    | some (e0 :: restElems) =>
      match parseJsonString e0 with
      | some ev => if ev = "" then none else some (ev, restElems.head?)
      | none => none
    | _ => none) = some (event, some (Json.marshal payload))
  rw [hfr]
  show (match parseJsonString (marshalString event) with
    | some ev => if ev = "" then none else some (ev, [Json.marshal payload].head?)
    | none => none) = some (event, some (Json.marshal payload))
  rw [hstr]
  show (if event = "" then none
    else some (event, [Json.marshal payload].head?)) = some (event, some (Json.marshal payload))
  rw [if_neg hev]
  rfl

theorem parseSocketIOEvent_ns (t : List Char) (event : String) (payload : Json)
    (hev : event ≠ "") (hwf : Json.WF payload = true)
    (hnc : ',' ∉ ('/' :: t)) :
    parseSocketIOEvent ('2' :: ('/' :: (t ++ ',' :: marshalEventFrame event payload)))
      = some (event, some (Json.marshal payload)) := by
  have hcontains : ('/' :: (t ++ ',' :: marshalEventFrame event payload)).contains ','
      = true := by
    exact contains_comma_append ('/' :: t) _
  have hsplit := takeWhile_append_boundary (fun c => c != ',') ('/' :: t)
    (',' :: marshalEventFrame event payload) (all_ne_comma _ hnc)
    (by intro c hc; simp at hc; subst hc; simp)
  have hdw : ('/' :: (t ++ ',' :: marshalEventFrame event payload)).dropWhile
      (fun c => c != ',') = ',' :: marshalEventFrame event payload := by
    have := hsplit.2
    simpa using this
  simp only [parseSocketIOEvent]
  rw [hcontains]
  simp only [if_true]
  rw [hdw]
  show (match parseJsonArrayRaw (marshalEventFrame event payload) with
    | some (e0 :: restElems) =>
      match parseJsonString e0 with
      | some ev => if ev = "" then none else some (ev, restElems.head?)
      | none => none
    | _ => none) = some (event, some (Json.marshal payload))
  rw [parseJsonArrayRaw_frame event payload hwf]
  show (match parseJsonString (marshalString event) with
    | some ev => if ev = "" then none else some (ev, [Json.marshal payload].head?)
    | none => none) = some (event, some (Json.marshal payload))
  rw [parseJsonString_marshalString event]
  show (if event = "" then none
    else some (event, [Json.marshal payload].head?)) = some (event, some (Json.marshal payload))
  rw [if_neg hev]
  rfl

/-- C1 (amended): encoding an event as `emit` does — the JSON array
`[eventName, payload]` behind the namespace-plus-comma prefix when the
namespace is not root — and then parsing the message body with
`parseSocketIOEvent` yields ok, the same event name, and the raw payload
exactly equal to the encoded payload, for every non-empty event name,
every JSON-serializable (well-formed) payload, and every namespace that
is root (`""` or `"/"`) or begins with `/` and contains no comma. -/
theorem c1_emit_parse_roundtrip (ns event : String) (payload : Json)
    (hev : event ≠ "") (hwf : Json.WF payload = true)
    (hns : ns = "" ∨ ns = "/" ∨ (ns.toList.head? = some '/' ∧ ',' ∉ ns.toList)) :
    parseSocketIOEvent ((emitPacket ns event payload).drop 1)
      = some (event, some (Json.marshal payload)) := by
  rcases hns with rfl | rfl | ⟨hhead, hnc⟩
  · exact parseSocketIOEvent_root event payload hev hwf
  · exact parseSocketIOEvent_root event payload hev hwf
  · have hne : ns ≠ "" := by
      intro h
      rw [h] at hhead
      simp at hhead
    by_cases hslash : ns = "/"
    · subst hslash
      exact parseSocketIOEvent_root event payload hev hwf
    · obtain ⟨t, ht⟩ : ∃ t, ns.toList = '/' :: t := by
        cases hl : ns.toList with
        | nil => rw [hl] at hhead; simp at hhead
        | cons c cs =>
          rw [hl] at hhead
          exact ⟨cs, by simpa using congrArg (· :: cs) (by simpa using hhead)⟩
      have hpre : namespacePrefixOf ns = ns.toList ++ [','] := by
        simp [namespacePrefixOf, hne, hslash]
      have hshape : (emitPacket ns event payload).drop 1
          = '2' :: ('/' :: (t ++ ',' :: marshalEventFrame event payload)) := by
        show '2' :: (namespacePrefixOf ns ++ marshalEventFrame event payload) = _
        rw [hpre, ht]
        simp
      rw [hshape]
      exact parseSocketIOEvent_ns t event payload hev hwf (ht ▸ hnc)

theorem c1_emit_parse_roundtrip_witness :
    ("terminal:output" : String) ≠ ""
    ∧ Json.WF (Json.obj (.cons "sessionId" (.str "s1") .nil)) = true
    ∧ parseSocketIOEvent ((emitPacket "/terminal" "terminal:output"
        (Json.obj (.cons "sessionId" (.str "s1") .nil))).drop 1)
      = some ("terminal:output",
          some (Json.marshal (Json.obj (.cons "sessionId" (.str "s1") .nil)))) := by
  refine ⟨by decide, by decide, ?_⟩
  exact c1_emit_parse_roundtrip "/terminal" "terminal:output" _ (by decide) (by decide)
    (Or.inr (Or.inr ⟨by decide, by decide⟩))

/-- C1 counterexample: the round trip fails as literally stated.  For the
non-root namespace `/a,b` (it contains a comma) parsing returns
ok = false instead of the event, and for the empty event name in the root
namespace parsing also returns ok = false. -/
theorem c1_counterexample :
    parseSocketIOEvent ((emitPacket "/a,b" "terminal:output" .null).drop 1) = none
    ∧ parseSocketIOEvent ((emitPacket "" "" .null).drop 1) = none := by
  exact ⟨rfl, rfl⟩

/-! ### URL builder (claims C2, C9) -/

theorem valuesGet_set_self (vs : QueryValues) (k v : List Nat) :
    valuesGet (valuesSet vs k v) k = [v] := by
  induction vs with
  | nil => simp [valuesSet, valuesGet]
  | cons e rest ih =>
    obtain ⟨k1, vs1⟩ := e
    by_cases h : k1 = k
    · simp [valuesSet, valuesGet, h]
    · simp [valuesSet, valuesGet, h, ih]

theorem valuesGet_set_ne (vs : QueryValues) (k v k' : List Nat) (h : k' ≠ k) :
    valuesGet (valuesSet vs k v) k' = valuesGet vs k' := by
  induction vs with
  | nil =>
    simp [valuesSet, valuesGet]
    intro he
    exact absurd he.symm h
  | cons e rest ih =>
    obtain ⟨k1, vs1⟩ := e
    by_cases h1 : k1 = k
    · subst h1
      simp [valuesSet, valuesGet, Ne.symm h]
    · simp [valuesSet, valuesGet, h1, ih]

/-- C2 (amended): for every parsed base URL with scheme `https` (resp.
`http`) the derived URL has scheme `wss` (resp. `ws`), path
`/socket.io/`, and a query carrying `EIO=4`, `transport=websocket` and
`token=<token>`, with every caller-supplied parameter other than those
three overwritten keys preserved; and the concrete scenario from the
spec renders exactly. -/
theorem c2_url_builder (u : GoURL) (token : String) (k : List Nat) :
    ((u.scheme = "https" → ((buildSocketIOURLFrom u token).1).scheme = "wss")
      ∧ (u.scheme = "http" → ((buildSocketIOURLFrom u token).1).scheme = "ws"))
    ∧ ((buildSocketIOURLFrom u token).1).path = "/socket.io/"
    ∧ valuesGet (buildSocketIOValues u.rawQuery token) (strBytes "EIO") = [strBytes "4"]
    ∧ valuesGet (buildSocketIOValues u.rawQuery token) (strBytes "transport")
        = [strBytes "websocket"]
    ∧ valuesGet (buildSocketIOValues u.rawQuery token) (strBytes "token")
        = [strBytes token]
    ∧ (k ≠ strBytes "EIO" → k ≠ strBytes "transport" → k ≠ strBytes "token" →
        valuesGet (buildSocketIOValues u.rawQuery token) k
          = valuesGet (parseQueryBytes (utf8Encode u.rawQuery)) k)
    ∧ ((buildSocketIOURLFrom u token).1).rawQuery
        = encodeValues (buildSocketIOValues u.rawQuery token)
    ∧ buildSocketIOURL "wss://api.example.com/terminal?sandbox=abc123" "tok-1"
        = some
          ("wss://api.example.com/socket.io/?EIO=4&sandbox=abc123&token=tok-1&transport=websocket".toList,
            "/terminal") := by
  refine ⟨⟨?_, ?_⟩, rfl, ?_, ?_, ?_, ?_, rfl, by rfl⟩
  · intro h
    simp [buildSocketIOURLFrom, h]
  · intro h
    simp [buildSocketIOURLFrom, h]
  · rw [buildSocketIOValues, valuesGet_set_ne _ _ _ _ (by decide),
      valuesGet_set_ne _ _ _ _ (by decide), valuesGet_set_self]
  · rw [buildSocketIOValues, valuesGet_set_ne _ _ _ _ (by decide), valuesGet_set_self]
  · rw [buildSocketIOValues, valuesGet_set_self]
  · intro h1 h2 h3
    rw [buildSocketIOValues, valuesGet_set_ne _ _ _ _ h3, valuesGet_set_ne _ _ _ _ h2,
      valuesGet_set_ne _ _ _ _ h1]

theorem c2_url_builder_witness :
    valuesGet (buildSocketIOValues "sandbox=abc123".toList "tok-1") (strBytes "sandbox")
      = valuesGet (parseQueryBytes (utf8Encode "sandbox=abc123".toList))
          (strBytes "sandbox") :=
  (c2_url_builder ⟨"wss", "api.example.com", "/terminal", "sandbox=abc123".toList⟩
    "tok-1" (strBytes "sandbox")).2.2.2.2.2.1 (by decide) (by decide) (by decide)

/-- C2 counterexample: a caller-supplied `EIO` parameter is overwritten,
not preserved, so "every caller-supplied query parameter preserved" fails
as literally stated. -/
theorem c2_counterexample :
    valuesGet (buildSocketIOValues "EIO=3".toList "tok") (strBytes "EIO")
      ≠ [strBytes "3"] := by decide

/-- C9: for every parsed base URL the derived namespace is `/terminal`
when the path is empty, and the original path unchanged otherwise. -/
theorem c9_namespace (rawURL token : String) (u : GoURL)
    (h : parseURLModel rawURL = some u) :
    (buildSocketIOURL rawURL token).map Prod.snd
      = some (if u.path = "" then "/terminal" else u.path)
    ∧ (buildSocketIOURLFrom u token).2 = (if u.path = "" then "/terminal" else u.path) := by
  refine ⟨?_, rfl⟩
  simp [buildSocketIOURL, h, buildSocketIOURLFrom]

theorem c9_namespace_witness :
    parseURLModel "wss://api.example.com/terminal?sandbox=abc123"
      = some ⟨"wss", "api.example.com", "/terminal", "sandbox=abc123".toList⟩
    ∧ (buildSocketIOURL "wss://api.example.com/terminal?sandbox=abc123" "tok-1").map
        Prod.snd = some "/terminal" := by
  refine ⟨by rfl, ?_⟩
  exact (c9_namespace "wss://api.example.com/terminal?sandbox=abc123" "tok-1"
    ⟨"wss", "api.example.com", "/terminal", "sandbox=abc123".toList⟩ rfl).1.trans (by rfl)

/-! ### Resize, Close and the closed flag (claims C5, C7, C8) -/

/-- C5 (amended): `Resize` with no session identifier sends nothing and
returns success; with a session identifier set and the connection not yet
closed it sends exactly one `terminal:resize` event carrying that
identifier and the given dimensions, and nothing else. -/
theorem c5_resize (st : TermState) (cols rows : Int) :
    (st.session = "" → Resize st cols rows = (st, none))
    ∧ (st.session ≠ "" → st.closed = false →
        Resize st cols rows
          = ({ st with sent := st.sent ++
              [emitPacket st.nsp "terminal:resize"
                (resizePayload st.session cols rows)] }, none)) := by
  constructor
  · intro h
    simp [Resize, getSessionID, h]
  · intro h hc
    simp [Resize, getSessionID, h, emit, writePacket, hc]

theorem c5_resize_witness :
    Resize stNoSession 80 24 = (stNoSession, none)
    ∧ Resize stLive 80 24
      = ({ stLive with sent := [emitPacket "/terminal" "terminal:resize"
            (resizePayload "s1" 80 24)] }, none) := by
  constructor
  · exact (c5_resize stNoSession 80 24).1 rfl
  · exact ((c5_resize stLive 80 24).2 (by decide) rfl).trans (by rfl)

/-- C5 counterexample: with a session identifier set but the connection
closed, `Resize` sends nothing and returns `io.EOF` instead of sending
one resize event. -/
theorem c5_counterexample :
    (Resize stClosed 80 24).1.sent = [] ∧ (Resize stClosed 80 24).2 = some GoError.eof :=
  ⟨rfl, rfl⟩

/-- The inbound loop body never touches the closed flag. -/
theorem handleMessage_closed (st : TermState) (p : List Char) :
    (handleMessage st p).1.closed = st.closed := by
  unfold handleMessage writePacket setSessionID
  repeat' split
  all_goals rfl

/-- C7 (amended): the closed flag is monotonic (no operation or packet
delivery resets it), and once `Close` has been called every operation
that attempts a write — `writePacket`, `emit`, and `Resize` when a
session identifier is set — fails with `io.EOF` rather than panicking,
while `Resize` with no session identifier and repeated `Close` still
return success. -/
theorem c7_closed_ops (st : TermState) (h : st.closed = true) :
    (∀ op : TermOp, ((applyOp st op).1).closed = true)
    ∧ (∀ packet, writePacket st packet = (st, some GoError.eof))
    ∧ (∀ event payload, emit st event payload = (st, some GoError.eof))
    ∧ (∀ cols rows, st.session ≠ "" → Resize st cols rows = (st, some GoError.eof))
    ∧ (∀ cols rows, st.session = "" → Resize st cols rows = (st, none))
    ∧ Close st = (st, none) := by
  have hwrite : ∀ packet, writePacket st packet = (st, some GoError.eof) := by
    intro packet
    simp [writePacket, h]
  refine ⟨?_, hwrite, ?_, ?_, ?_, ?_⟩
  · intro op
    cases op with
    | close => simp [applyOp, Close, h]
    | resize cols rows =>
      by_cases hs : st.session = ""
      · simp [applyOp, Resize, getSessionID, hs, h]
      · simp [applyOp, Resize, getSessionID, hs, emit, hwrite, h]
    | emitEvent event payload => simp [applyOp, emit, hwrite, h]
    | write packet => simp [applyOp, hwrite, h]
    | setSession sessionID => simp [applyOp, setSessionID, h]
    | recv packet => simpa [applyOp] using (handleMessage_closed st packet).trans h
  · intro event payload
    exact hwrite _
  · intro cols rows hs
    simp [Resize, getSessionID, hs, emit, hwrite]
  · intro cols rows hs
    simp [Resize, getSessionID, hs]
  · simp [Close, h]

theorem c7_closed_ops_witness :
    stClosed.closed = true
    ∧ writePacket stClosed ['3'] = (stClosed, some GoError.eof)
    ∧ ((applyOp stClosed (.resize 80 24)).1).closed = true :=
  ⟨rfl, (c7_closed_ops stClosed rfl).2.1 ['3'],
    (c7_closed_ops stClosed rfl).1 (.resize 80 24)⟩

/-- C7 counterexample: after `Close`, `Resize` with no session identifier
and a second `Close` both return success, not an end-of-stream failure,
so "every operation fails with an end-of-stream condition" is false as
stated. -/
theorem c7_counterexample :
    stClosedNoSession.closed = true
    ∧ (Resize stClosedNoSession 80 24).2 = none
    ∧ (Close stClosedNoSession).2 = none :=
  ⟨rfl, rfl, rfl⟩

/-- C8: `Close` is idempotent and never fails: any number of calls has
the observable effect of one (closed flag set, socket released once), and
every call, the first included, returns success. -/
theorem c8_close_idempotent (st : TermState) (n : Nat) :
    (fun s => (Close s).1)^[n + 1] st = (Close st).1
    ∧ (Close st).2 = none
    ∧ ((Close st).1).closed = true
    ∧ ((fun s => (Close s).1)^[n + 1] st).connCloseCount
        = ((Close st).1).connCloseCount := by
  have hret : ∀ s : TermState, (Close s).2 = none := by
    intro s
    by_cases h : s.closed <;> simp [Close, h]
  have hclosed : ∀ s : TermState, ((Close s).1).closed = true := by
    intro s
    by_cases h : s.closed <;> simp [Close, h]
  have hidem : ∀ s : TermState, (Close ((Close s).1)).1 = (Close s).1 := by
    intro s
    by_cases h : s.closed <;> simp [Close, h]
  have hiter : (fun s => (Close s).1)^[n + 1] st = (Close st).1 := by
    induction n with
    | zero => simp
    | succ m ih =>
      rw [Function.iterate_succ_apply', ih, hidem]
  exact ⟨hiter, hret st, hclosed st, by rw [hiter]⟩

/-! ### The inbound loop (claims C3, C4, C6, C10) -/

theorem inboundLoop_cons (st : TermState) (p : List Char) (ps : List (List Char))
    (e : GoError) :
    inboundLoop st (p :: ps) e
      = (match handleMessage st p with
         | (st', none) => inboundLoop st' ps e
         | (st', some err) => (st', err)) := rfl

/-- The inbound loop's dispatch over a parsed message envelope, as a
function of the decoded event name and raw payload. -/
theorem handleMessage_dispatch (st : TermState) (tail : List Char)
    (event : String) (raw : Option (List Char))
    (hev : parseSocketIOEvent tail = some (event, raw)) :
    handleMessage st ('4' :: tail)
      = (if event = "terminal:started" then
          match decodeStringField raw "sessionId" with
          | none => (st, some (GoError.errorf "failed to decode terminal:started payload"))
          | some sid =>
            if sid = "" then
              (st, some (GoError.errorf "failed to decode terminal:started payload"))
            else ({ setSessionID st sid with startedFlag := true }, none)
        else if event = "terminal:output" then
          match decodeOutputPayload raw with
          | none => (st, none)
          | some data =>
            match base64DecodeString data with
            | some bytes => ({ st with outputs := st.outputs ++ [bytes] }, none)
            | none => ({ st with outputs := st.outputs ++ [utf8Encode data.toList] }, none)
        else if event = "terminal:error" then
          match decodeStringField raw "message" with
          | none => (st, some (GoError.errorf "terminal error"))
          | some m =>
            if trimSpace m = "" then (st, some (GoError.errorf "terminal error"))
            else (st, some (GoError.errorf ("terminal error: " ++ m)))
        else if event = "terminal:ended" then (st, some GoError.eof)
        else (st, none)) := by
  unfold handleMessage
  dsimp only
  rw [if_neg (by decide), if_pos rfl, show ('4' :: tail).drop 1 = tail from rfl, hev]

/-- C3: a `terminal:error` event with a decodable non-empty message ends
the inbound loop with an error whose text contains that message, and
`Run` surfaces it; an undecodable or blank message ends the loop with the
fatal `terminal error` protocol error. -/
theorem c3_error_event (st : TermState) (tail : List Char) (ps : List (List Char))
    (e : GoError) (raw : Option (List Char))
    (hev : parseSocketIOEvent tail = some ("terminal:error", raw)) :
    (∀ m, decodeStringField raw "message" = some m → trimSpace m ≠ "" →
      inboundLoop st (('4' :: tail) :: ps) e
          = (st, GoError.errorf ("terminal error: " ++ m))
        ∧ runReturnOf (GoError.errorf ("terminal error: " ++ m))
            = some (GoError.errorf ("terminal error: " ++ m))
        ∧ ∃ pre suf : String, "terminal error: " ++ m = pre ++ m ++ suf)
    ∧ ((decodeStringField raw "message" = none
          ∨ ∃ m, decodeStringField raw "message" = some m ∧ trimSpace m = "") →
        inboundLoop st (('4' :: tail) :: ps) e = (st, GoError.errorf "terminal error")
          ∧ runReturnOf (GoError.errorf "terminal error")
              = some (GoError.errorf "terminal error")) := by
  have hd := handleMessage_dispatch st tail "terminal:error" raw hev
  rw [if_neg (by decide), if_neg (by decide), if_pos rfl] at hd
  constructor
  · intro m hm htrim
    have hd2 : handleMessage st ('4' :: tail)
        = (st, some (GoError.errorf ("terminal error: " ++ m))) := by
      rw [hd, hm]
      simp [htrim]
    refine ⟨?_, rfl, "terminal error: ", "", by simp⟩
    rw [inboundLoop_cons, hd2]
  · intro hcase
    have hd2 : handleMessage st ('4' :: tail)
        = (st, some (GoError.errorf "terminal error")) := by
      rcases hcase with hnone | ⟨m, hm, htrim⟩
      · rw [hd, hnone]
      · rw [hd, hm]
        simp [htrim]
    exact ⟨by rw [inboundLoop_cons, hd2], rfl⟩

theorem c3_error_event_witness :
    inboundLoop stLive [pktError] GoError.eof
      = (stLive, GoError.errorf ("terminal error: " ++ "boom"))
    ∧ inboundLoop stLive [pktErrorEmpty] GoError.eof
      = (stLive, GoError.errorf "terminal error") := by
  constructor
  · exact ((c3_error_event stLive
      ("2[\"terminal:error\",\x7b\"message\":\"boom\"\x7d]".toList) [] GoError.eof
      (some ("\x7b\"message\":\"boom\"\x7d".toList)) (by rfl)).1 "boom" (by rfl)
      (by decide)).1
  · exact ((c3_error_event stLive
      ("2[\"terminal:error\",\x7b\"message\":\"  \"\x7d]".toList) [] GoError.eof
      (some ("\x7b\"message\":\"  \"\x7d".toList)) (by rfl)).2
      (Or.inr ⟨"  ", by rfl, by decide⟩)).1

/-- C4: graceful termination.  A `terminal:ended` event ends the inbound
loop with `io.EOF`, which `Run` maps to success; local input exhaustion
ends the outbound loop with `io.EOF`, mapped to success; and if the
inbound loop ends with `io.EOF` before the session ever became active,
`Run` returns success immediately with no input ever forwarded. -/
theorem c4_graceful :
    (∀ (st : TermState) (tail : List Char) (ps : List (List Char)) (e : GoError)
        (raw : Option (List Char)),
      parseSocketIOEvent tail = some ("terminal:ended", raw) →
        inboundLoop st (('4' :: tail) :: ps) e = (st, GoError.eof)
          ∧ runReturnOf GoError.eof = none)
    ∧ (∀ (ns session : String) (chunks : List (List Nat)),
        (outboundLoop ns session chunks GoError.eof).2 = GoError.eof
          ∧ runReturnOf GoError.eof = none)
    ∧ (∀ (st0 st1 st2 : TermState) (packets : List (List Char)) (readErr : GoError)
          (chunks : List (List Nat)) (stdinErr : GoError) (b : Bool),
        emit st0 "terminal:start" (startPayload st0.sandboxID) = (st1, none) →
        runPhase1 st1 packets readErr = .inr (st2, GoError.eof) →
        runModel st0 packets readErr chunks stdinErr b
          = { ret := none, finalState := st2, inputsSent := [] })
    ∧ (∀ (st0 st1 st2 : TermState) (packets rest : List (List Char)) (readErr : GoError)
          (chunks : List (List Nat)),
        emit st0 "terminal:start" (startPayload st0.sandboxID) = (st1, none) →
        runPhase1 st1 packets readErr = .inl (st2, rest) →
        (runModel st0 packets readErr chunks GoError.eof false).ret = none) := by
  have houtbound : ∀ (ns session : String) (chunks : List (List Nat)),
      (outboundLoop ns session chunks GoError.eof).2 = GoError.eof := by
    intro ns session chunks
    induction chunks with
    | nil => rfl
    | cons c cs ih => simpa [outboundLoop] using ih
  refine ⟨?_, ?_, ?_, ?_⟩
  · intro st tail ps e raw hev
    have hd := handleMessage_dispatch st tail "terminal:ended" raw hev
    rw [if_neg (by decide), if_neg (by decide), if_neg (by decide), if_pos rfl] at hd
    exact ⟨by rw [inboundLoop_cons, hd], rfl⟩
  · intro ns session chunks
    exact ⟨houtbound ns session chunks, rfl⟩
  · intro st0 st1 st2 packets readErr chunks stdinErr b hemit hphase
    rw [runModel, hemit]
    dsimp only
    rw [hphase]
    rfl
  · intro st0 st1 st2 packets rest readErr chunks hemit hphase
    rw [runModel, hemit]
    dsimp only
    rw [hphase]
    dsimp only
    rw [houtbound st2.nsp st2.session chunks]
    rfl

theorem c4_graceful_witness :
    runModel stFresh [pktEnded] (GoError.errorf "conn closed") [] GoError.eof true
      = { ret := none,
          finalState := { stFresh with
            sent := [emitPacket "/terminal" "terminal:start" (startPayload "sb")] },
          inputsSent := [] } := by
  exact c4_graceful.2.2.1 stFresh
    { stFresh with sent := [emitPacket "/terminal" "terminal:start" (startPayload "sb")] }
    { stFresh with sent := [emitPacket "/terminal" "terminal:start" (startPayload "sb")] }
    [pktEnded] (GoError.errorf "conn closed") [] GoError.eof true rfl rfl

/-- C10: a message envelope (`4` packet) that does not parse as an event,
or parses to an event outside the handled vocabulary, leaves the state
(session, closed flag, outputs, sent packets) unchanged, does not end the
loop, and the loop continues with the next packet. -/
theorem c10_unhandled_frames (st : TermState) (tail : List Char)
    (ps : List (List Char)) (e : GoError)
    (h : parseSocketIOEvent tail = none
      ∨ ∃ event raw, parseSocketIOEvent tail = some (event, raw)
          ∧ event ∉ (["terminal:started", "terminal:output", "terminal:error",
              "terminal:ended"] : List String)) :
    handleMessage st ('4' :: tail) = (st, none)
    ∧ inboundLoop st (('4' :: tail) :: ps) e = inboundLoop st ps e := by
  have hh : handleMessage st ('4' :: tail) = (st, none) := by
    rcases h with h | ⟨event, raw, hev, hmem⟩
    · unfold handleMessage
      dsimp only
      rw [if_neg (by decide), if_pos rfl, show ('4' :: tail).drop 1 = tail from rfl, h]
    · simp only [List.mem_cons, List.not_mem_nil, or_false, not_or] at hmem
      obtain ⟨h1, h2, h3, h4⟩ := hmem
      rw [handleMessage_dispatch st tail event raw hev,
        if_neg h1, if_neg h2, if_neg h3, if_neg h4]
  refine ⟨hh, ?_⟩
  rw [inboundLoop_cons, hh]

theorem c10_unhandled_frames_witness :
    handleMessage stLive ('4' :: "2[\"foo\",1]".toList) = (stLive, none)
    ∧ handleMessage stLive ('4' :: "0/terminal,\x7b\"sid\":\"x\"\x7d".toList) = (stLive, none) :=
  ⟨(c10_unhandled_frames stLive ("2[\"foo\",1]".toList) [] GoError.eof
      (Or.inr ⟨"foo", some ['1'], rfl, by decide⟩)).1,
    (c10_unhandled_frames stLive ("0/terminal,\x7b\"sid\":\"x\"\x7d".toList) [] GoError.eof
      (Or.inl rfl)).1⟩

/-- Per-packet effect on the session identifier: unchanged, or set to the
non-empty identifier of a decodable started acknowledgment. -/
theorem handleMessage_session (st : TermState) (p : List Char) :
    (handleMessage st p).1.session = st.session
    ∨ (startedIdOf p = some ((handleMessage st p).1.session)
        ∧ ((handleMessage st p).1.session ≠ "")) := by
  unfold handleMessage startedIdOf writePacket setSessionID
  repeat' split
  all_goals simp_all

/-- C6 (amended): over any run of the inbound loop the session identifier
is either unchanged from its starting value or equal to the non-empty
identifier of some received started acknowledgment, and once non-empty it
never becomes empty again. -/
theorem c6_session_invariant (st : TermState) (ps : List (List Char)) (e : GoError) :
    ((inboundLoop st ps e).1.session = st.session
      ∨ ∃ p ∈ ps, startedIdOf p = some ((inboundLoop st ps e).1.session)
          ∧ (inboundLoop st ps e).1.session ≠ "")
    ∧ (st.session ≠ "" → (inboundLoop st ps e).1.session ≠ "") := by
  induction ps generalizing st with
  | nil => simp [inboundLoop]
  | cons p ps ih =>
    have hs := handleMessage_session st p
    rcases hm : handleMessage st p with ⟨st', r⟩
    rw [hm] at hs
    dsimp only at hs
    cases r with
    | none =>
      have hl : inboundLoop st (p :: ps) e = inboundLoop st' ps e := by
        rw [inboundLoop_cons, hm]
      rw [hl]
      obtain ⟨ih1, ih2⟩ := ih st'
      constructor
      · rcases ih1 with h1 | ⟨q, hq, hqid, hqne⟩
        · rw [h1]
          rcases hs with h2 | ⟨h2, h3⟩
          · exact Or.inl h2
          · exact Or.inr ⟨p, List.mem_cons_self _ _, h2, h3⟩
        · exact Or.inr ⟨q, List.mem_cons_of_mem _ hq, hqid, hqne⟩
      · intro hne
        apply ih2
        rcases hs with h2 | ⟨h2, h3⟩
        · rw [h2]; exact hne
        · exact h3
    | some err =>
      have hl : inboundLoop st (p :: ps) e = (st', err) := by
        rw [inboundLoop_cons, hm]
      rw [hl]
      dsimp only
      constructor
      · rcases hs with h2 | ⟨h2, h3⟩
        · exact Or.inl h2
        · exact Or.inr ⟨p, List.mem_cons_self _ _, h2, h3⟩
      · intro hne
        rcases hs with h2 | ⟨h2, h3⟩
        · rw [h2]; exact hne
        · exact h3

theorem c6_session_invariant_witness :
    (inboundLoop stLive [pktEnded] GoError.eof).1.session ≠ "" :=
  (c6_session_invariant stLive [pktEnded] GoError.eof).2 (by decide)

/-- C6 counterexample: a second started acknowledgment overwrites the
session identifier, so "it never changes again after becoming non-empty"
is false: after `started(a)` the identifier is `a`, but processing
`started(b)` afterwards changes it to `b`. -/
theorem c6_counterexample :
    (inboundLoop stFresh [pktStartedA] GoError.eof).1.session = "a"
    ∧ (inboundLoop stFresh [pktStartedA, pktStartedB] GoError.eof).1.session = "b"
    ∧ ("a" : String) ≠ "b" :=
  ⟨rfl, rfl, by decide⟩

end CVPS
